import Mathlib

/-! # Event queues of `burl`

A shallow embedding of the event subsystem of the `burl` engine
(`burl/event.go`, `ui/event.go`) and of its game loop (`burlengine.go`),
together with theorems about them.

Conventions of the embedding.

* A Go buffered channel `chan *Event` is a record of its buffered elements
  (oldest first) and its capacity.  A send on a full channel and a receive
  on an empty channel block the calling goroutine; the operations return
  `none` in that case, so every function that touches a channel returns an
  `Option`.
* A Go `map[K]bool` is a total function `K → Bool`: a lookup of an absent
  key yields the zero value `false`.
* Package-level variables are the fields of a `State` record which every
  function takes and returns.
* `*Event` values are modelled by the record they point to; a function that
  returns `nil` or a pointer returns an `Option`.
* Go `int` is modelled by the unbounded `Int`.
* `UIElem` is an interface declared outside these files; it is a type
  parameter, and an interface value is `none` (nil) or `some u`.
* The native input of `GameLoop` is a script: for each iteration of the
  loop, the events `sdl.PollEvent` returns before it returns nil.  The calls
  the loop makes to other packages are recorded in order.
-/

/-! ## Buffered channels -/

/-- A buffered channel: `buf` lists the buffered elements, oldest first,
and `cap` is the capacity fixed by `make`. -/
structure Chan (α : Type) where
  buf : List α
  cap : Nat
deriving DecidableEq, Repr

namespace Chan

variable {α : Type}

/-- Go `make(chan T, n)`: a fresh empty channel of capacity `n`. -/
def make (n : Nat) : Chan α :=
  { buf := [], cap := n }

/-- Go `len(c)`. -/
def len (c : Chan α) : Nat :=
  c.buf.length

/-- Go `c <- a`.  The element is appended when there is room; `none` means
the send would block. -/
def send (c : Chan α) (a : α) : Option (Chan α) :=
  if c.buf.length < c.cap then some { c with buf := c.buf ++ [a] } else none

/-- Go `<-c`.  The oldest element is removed and returned; `none` means the
receive would block. -/
def recv (c : Chan α) : Option (α × Chan α) :=
  match c.buf with
  | [] => none
  | a :: rest => some (a, { c with buf := rest })

end Chan

/-! ## Go maps with boolean values -/

/-- The empty map: every lookup yields `false`. -/
def emptyMap {K : Type} : K → Bool :=
  fun _ => false

/-- Go `m[k] = v`. -/
def mapSet {K : Type} [DecidableEq K] (m : K → Bool) (k : K) (v : Bool) : K → Bool :=
  fun j => if j = k then v else m j

/-- Modelled from the spec: `LogError` is called by both packages but is
declared in a file that is not part of the sources at hand.  The spec says
that a queue overflow "is reported as a warning-level failure, not a fatal
error" and that it is "non-fatal, logged"; the model appends the message to a
log and returns. -/
def LogError (msg : String) (log : List String) : List String :=
  log ++ [msg]

/-! ## Package `burl` (`burl/event.go`) -/

namespace Burl

/-- Go `type EventType int`. -/
abbrev EventType := Int

def EV_UPDATE_UI : EventType := 0
def EV_CHANGE_STATE : EventType := 1
def EV_QUIT : EventType := 2
def EV_TAB_FIELD : EventType := 3
def EV_ANIMATION_DONE : EventType := 4
def EV_BUTTON_PRESS : EventType := 5
def EV_LIST_CYCLE : EventType := 6
def EV_MAX_EVENTS : EventType := 7

/-- The built-in kinds, `EV_UPDATE_UI` to `EV_LIST_CYCLE`. -/
def builtinKinds : List EventType :=
  [EV_UPDATE_UI, EV_CHANGE_STATE, EV_QUIT, EV_TAB_FIELD, EV_ANIMATION_DONE,
    EV_BUTTON_PRESS, EV_LIST_CYCLE]

/-- Go `type Event struct`. -/
structure Event (UIElem : Type) where
  ID : EventType
  Message : String
  Caller : Option UIElem
deriving DecidableEq, Repr

/-- The package-level variables of `burl/event.go`, and the error log. -/
structure State (UIElem : Type) where
  customEventNum : Int
  internalEvent : EventType → Bool
  eventStream : Chan (Event UIElem)
  eventStreamInternal : Chan (Event UIElem)
  uiEvents : String → Bool
  errorLog : List String

variable {UIElem : Type}

/-- Go `NewEvent`. -/
def NewEvent (id : EventType) (m : String) : Event UIElem :=
  { ID := id, Message := m, Caller := none }

/-- Go `NewUIEvent`. -/
def NewUIEvent (id : EventType) (m : String) (call : Option UIElem) : Event UIElem :=
  { ID := id, Message := m, Caller := call }

/-- Go `func init()`: the state in which the package starts. -/
def init : State UIElem :=
  { eventStream := Chan.make 1000
    eventStreamInternal := Chan.make 1000
    uiEvents := emptyMap
    internalEvent := mapSet (mapSet emptyMap EV_QUIT true) EV_CHANGE_STATE true
    customEventNum := 0
    errorLog := [] }

/-- Go `RegisterCustomEvent`: the returned kind and the new state. -/
def RegisterCustomEvent (s : State UIElem) : EventType × State UIElem :=
  let s1 := { s with customEventNum := s.customEventNum + 1 }
  (EV_MAX_EVENTS + s1.customEventNum, s1)

/-- Go `addEvent(e, stream)`.  The parameter `stream` is a copy of the
caller's channel reference.  `stream = make(chan *Event, 1000)` rebinds that
local copy only, so in the overflow branch the send goes to the fresh channel,
which nothing else refers to, and the channel the caller passed keeps its
contents.  The result is the channel the caller passed, as it is after the
call, and the log. -/
def addEvent (e : Event UIElem) (stream : Chan (Event UIElem)) (log : List String) :
    Option (Chan (Event UIElem) × List String) :=
  if stream.len = stream.cap then
    let fresh : Chan (Event UIElem) := Chan.make 1000
    let log1 := LogError "stream buffer overflow! all events flushed. Oh no." log
    match fresh.send e with
    | none => none
    | some _ => some (stream, log1)
  else
    match stream.send e with
    | none => none
    | some c => some (c, log)

/-- Go `PushEvent`. -/
def PushEvent (e : Event UIElem) (s : State UIElem) : Option (State UIElem) :=
  if e.ID = EV_UPDATE_UI ∧ s.uiEvents e.Message = true then
    some s
  else
    let s1 :=
      if e.ID = EV_UPDATE_UI then { s with uiEvents := mapSet s.uiEvents e.Message true }
      else s
    if s1.internalEvent e.ID = true then
      match addEvent e s1.eventStreamInternal s1.errorLog with
      | none => none
      | some (c, log) => some { s1 with eventStreamInternal := c, errorLog := log }
    else
      match addEvent e s1.eventStream s1.errorLog with
      | none => none
      | some (c, log) => some { s1 with eventStream := c, errorLog := log }

/-- Go `ClearEvents`. -/
def ClearEvents (s : State UIElem) : State UIElem :=
  { s with eventStream := Chan.make 1000 }

/-- Go `clearEventsInternal`. -/
def clearEventsInternal (s : State UIElem) : State UIElem :=
  { s with eventStreamInternal := Chan.make 1000 }

/-- Go `PopEvent`: the returned event (`none` for `nil`) and the new state. -/
def PopEvent (s : State UIElem) : Option (Option (Event UIElem) × State UIElem) :=
  if s.eventStream.len > 0 then
    match s.eventStream.recv with
    | none => none
    | some (e, c) =>
      let s1 := { s with eventStream := c }
      let s2 :=
        if e.ID = EV_UPDATE_UI then { s1 with uiEvents := mapSet s1.uiEvents e.Message false }
        else s1
      some (some e, s2)
  else
    some (none, s)

/-- Go `popInternalEvent`. -/
def popInternalEvent (s : State UIElem) : Option (Option (Event UIElem) × State UIElem) :=
  if s.eventStreamInternal.len > 0 then
    match s.eventStreamInternal.recv with
    | none => none
    | some (e, c) => some (some e, { s with eventStreamInternal := c })
  else
    some (none, s)

/-! ### Drivers: sequences of calls -/

/-- `PushEvent` on each event of a list, in order. -/
def pushAll : List (Event UIElem) → State UIElem → Option (State UIElem)
  | [], s => some s
  | e :: es, s =>
    match PushEvent e s with
    | none => none
    | some s1 => pushAll es s1

/-- `PopEvent` called `n` times: the results in call order and the final state. -/
def popN : Nat → State UIElem → Option (List (Option (Event UIElem)) × State UIElem)
  | 0, s => some ([], s)
  | n + 1, s =>
    match PopEvent s with
    | none => none
    | some (r, s1) =>
      match popN n s1 with
      | none => none
      | some (rs, s2) => some (r :: rs, s2)

/-- `popInternalEvent` called `n` times. -/
def popInternalN : Nat → State UIElem → Option (List (Option (Event UIElem)) × State UIElem)
  | 0, s => some ([], s)
  | n + 1, s =>
    match popInternalEvent s with
    | none => none
    | some (r, s1) =>
      match popInternalN n s1 with
      | none => none
      | some (rs, s2) => some (r :: rs, s2)

/-- `RegisterCustomEvent` called `n` times: the kinds returned, in call order,
and the final state. -/
def registerN : Nat → State UIElem → List EventType × State UIElem
  | 0, s => ([], s)
  | n + 1, s =>
    let r := RegisterCustomEvent s
    let rest := registerN n r.2
    (r.1 :: rest.1, rest.2)

/-- The states the package can be in: `init` followed by any sequence of
calls of its functions that return. -/
inductive Reachable : State UIElem → Prop
  | start : Reachable init
  | push {s s1 : State UIElem} (e : Event UIElem) :
      Reachable s → PushEvent e s = some s1 → Reachable s1
  | pop {s s1 : State UIElem} {r : Option (Event UIElem)} :
      Reachable s → PopEvent s = some (r, s1) → Reachable s1
  | popInternal {s s1 : State UIElem} {r : Option (Event UIElem)} :
      Reachable s → popInternalEvent s = some (r, s1) → Reachable s1
  | clear {s : State UIElem} : Reachable s → Reachable (ClearEvents s)
  | clearInternal {s : State UIElem} : Reachable s → Reachable (clearEventsInternal s)
  | register {s : State UIElem} : Reachable s → Reachable (RegisterCustomEvent s).2

/-- The refresh events with message `k` in a list of events. -/
def refreshCount (k : String) (l : List (Event UIElem)) : Nat :=
  l.countP (fun e => decide (e.ID = EV_UPDATE_UI ∧ e.Message = k))

/-- The coherence conditions on the package variables that `init` establishes
and every function of the package keeps. -/
structure Inv (s : State UIElem) : Prop where
  flags : ∀ k, s.internalEvent k = true ↔ k = EV_QUIT ∨ k = EV_CHANGE_STATE
  capExt : s.eventStream.cap = 1000
  capInt : s.eventStreamInternal.cap = 1000
  lenExt : s.eventStream.buf.length ≤ 1000
  lenInt : s.eventStreamInternal.buf.length ≤ 1000
  extKinds : ∀ e ∈ s.eventStream.buf, s.internalEvent e.ID = false
  intKinds : ∀ e ∈ s.eventStreamInternal.buf, s.internalEvent e.ID = true
  pending : ∀ e ∈ s.eventStream.buf, e.ID = EV_UPDATE_UI → s.uiEvents e.Message = true
  single : ∀ k, refreshCount k s.eventStream.buf ≤ 1
  counter : 0 ≤ s.customEventNum

/-! ### Sample states -/

/-- The state after `PushEvent(NewEvent(EV_UPDATE_UI, "hp_bar"))` on `init`. -/
def sampleRefreshQueued : State Unit :=
  { (init : State Unit) with
    uiEvents := mapSet emptyMap "hp_bar" true
    eventStream := { buf := [NewEvent EV_UPDATE_UI "hp_bar"], cap := 1000 } }

/-- The state after a subsequent `PopEvent`. -/
def sampleRefreshPopped : State Unit :=
  { (init : State Unit) with
    uiEvents := mapSet (mapSet emptyMap "hp_bar" true) "hp_bar" false
    eventStream := { buf := [], cap := 1000 } }

end Burl

/-! ## Package `ui` (`ui/event.go`) -/

namespace UI

/-- Go `type Event struct` of package `ui`. -/
structure Event (UIElem : Type) where
  Caller : Option UIElem
  ID : Int
  Message : String
deriving DecidableEq, Repr

/-- The package-level variable `EventStream`, and the error log. -/
structure State (UIElem : Type) where
  EventStream : Chan (Event UIElem)
  errorLog : List String

variable {UIElem : Type}

/-- Go `func init()` of package `ui`. -/
def init : State UIElem :=
  { EventStream := Chan.make 100, errorLog := [] }

/-- Go `ui.ClearEvents`: assigns a fresh channel to the package variable. -/
def ClearEvents (s : State UIElem) : State UIElem :=
  { s with EventStream := Chan.make 100 }

/-- Go `ui.PushEvent`. -/
def PushEvent (c : Option UIElem) (id : Int) (m : String) (s : State UIElem) :
    Option (State UIElem) :=
  let s1 :=
    if s.EventStream.len = s.EventStream.cap then
      let s0 := ClearEvents s
      { s0 with errorLog := LogError "UI Eventstream limit reached! FLUSHY FLUSHY." s0.errorLog }
    else s
  match s1.EventStream.send { Caller := c, ID := id, Message := m } with
  | none => none
  | some ch => some { s1 with EventStream := ch }

/-- Go `ui.PopEvent`. -/
def PopEvent (s : State UIElem) : Option (Option (Event UIElem) × State UIElem) :=
  if s.EventStream.len > 0 then
    match s.EventStream.recv with
    | none => none
    | some (e, c) => some (some e, { s with EventStream := c })
  else
    some (none, s)

/-- `ui.PushEvent` on each triple of a list, in order. -/
def pushAll : List (Option UIElem × Int × String) → State UIElem → Option (State UIElem)
  | [], s => some s
  | t :: ts, s =>
    match PushEvent t.1 t.2.1 t.2.2 s with
    | none => none
    | some s1 => pushAll ts s1

/-- `ui.PopEvent` called `n` times. -/
def popN : Nat → State UIElem → Option (List (Option (Event UIElem)) × State UIElem)
  | 0, s => some ([], s)
  | n + 1, s =>
    match PopEvent s with
    | none => none
    | some (r, s1) =>
      match popN n s1 with
      | none => none
      | some (rs, s2) => some (r :: rs, s2)

/-- The event `ui.PushEvent` builds from its arguments. -/
def mkEvent (t : Option UIElem × Int × String) : Event UIElem :=
  { Caller := t.1, ID := t.2.1, Message := t.2.2 }

/-- The states package `ui` can be in: `init` followed by any sequence of
calls of its functions that return. -/
inductive Reachable : State UIElem → Prop
  | start : Reachable init
  | push {s s1 : State UIElem} (c : Option UIElem) (id : Int) (m : String) :
      Reachable s → PushEvent c id m s = some s1 → Reachable s1
  | pop {s s1 : State UIElem} {r : Option (Event UIElem)} :
      Reachable s → PopEvent s = some (r, s1) → Reachable s1
  | clear {s : State UIElem} : Reachable s → Reachable (ClearEvents s)

end UI

/-! ## The game loop (`burlengine.go`) -/

namespace Burl.Engine

/-- Go `sdl.Keycode`. -/
abbrev Keycode := Int

/-- The values `sdl.PollEvent` returns, by the cases of the type switch in
`GameLoop`: `other` stands for every event type no case matches. -/
inductive SdlEvent where
  | QuitEvent
  | WindowEvent (Event : Nat)
  | KeyUpEvent (Sym : Keycode)
  | other
deriving DecidableEq, Repr

/-- The constant `sdl.WINDOWEVENT_RESTORED` of the SDL binding. -/
def WINDOWEVENT_RESTORED : Nat := 9

/-- The calls `GameLoop` makes to code outside `burlengine.go`, recorded in
the order in which they are made. -/
inductive Call where
  | LockOSThread
  | PollEvent
  | ForceRedraw
  | HandleKeypress (key : Keycode)
  | Update
  | Render
  | consoleRender
deriving DecidableEq, Repr

/-- Go `type State interface`.  `W` is everything the methods of an
implementation can read and write (its own fields, the event queues); the
methods do not reassign the variable `gameState`. -/
structure State (W : Type) where
  HandleKeypress : Keycode → W → W
  Update : W → W
  Render : W → W

/-- Go `type BurlState struct`. -/
structure BurlState where
  tick : Int
deriving DecidableEq, Repr

/-- Go `func (b BurlState) HandleKeypress`. -/
def BurlState.HandleKeypress (b : BurlState) (_key : Keycode) : BurlState :=
  b

/-- Go `func (b *BurlState) Update`. -/
def BurlState.Update (b : BurlState) : BurlState :=
  { b with tick := b.tick + 1 }

/-- Go `func (b BurlState) Render`. -/
def BurlState.Render (b : BurlState) : BurlState :=
  b

/-- A `BurlState` as an implementation of `State`: its methods touch the
receiver and nothing else. -/
def BurlState.asState {E : Type} : State (BurlState × E) :=
  { HandleKeypress := fun key w => (w.1.HandleKeypress key, w.2)
    Update := fun w => (w.1.Update, w.2)
    Render := fun w => (w.1.Render, w.2) }

/-- Go `InitState`: the new value of the variable `gameState`. -/
def InitState {W : Type} (m : Option (State W)) : Option (State W) :=
  m

/-- The variables of a running `GameLoop`: the local `running`, what the
methods of the State act on, and the calls made so far. -/
structure Loop (W : Type) where
  running : Bool
  world : W
  calls : List Call

variable {W : Type}

/-- The type switch in the body of the polling loop, on one event. -/
def dispatch (gameState : State W) (event : SdlEvent) (l : Loop W) : Loop W :=
  match event with
  | .QuitEvent => { l with running := false }
  | .WindowEvent ev =>
    if ev = WINDOWEVENT_RESTORED then { l with calls := l.calls ++ [Call.ForceRedraw] } else l
  | .KeyUpEvent sym =>
    { l with
      world := gameState.HandleKeypress sym l.world
      calls := l.calls ++ [Call.HandleKeypress sym] }
  | .other => l

/-- The polling loop `for event = sdl.PollEvent(); event != nil; ...` of one
iteration.  The list holds the events `sdl.PollEvent` returns before it
returns nil. -/
def pollEvents (gameState : State W) : List SdlEvent → Loop W → Loop W
  | [], l => { l with calls := l.calls ++ [Call.PollEvent] }
  | event :: rest, l =>
    pollEvents gameState rest
      (dispatch gameState event { l with calls := l.calls ++ [Call.PollEvent] })

/-- One iteration of `for running`: the polling loop, `gameState.Update()`,
`gameState.Render()`, `console.Render()`. -/
def frame (gameState : State W) (batch : List SdlEvent) (l : Loop W) : Loop W :=
  let l1 := pollEvents gameState batch l
  let l2 := { l1 with world := gameState.Update l1.world, calls := l1.calls ++ [Call.Update] }
  let l3 := { l2 with world := gameState.Render l2.world, calls := l2.calls ++ [Call.Render] }
  { l3 with calls := l3.calls ++ [Call.consoleRender] }

/-- What a call of `GameLoop` comes to on a finite script of native input:
it has returned (`err` is `none` for a nil error), or the loop is still
running and waits for input beyond the script. -/
inductive Outcome (W : Type) where
  | returned (err : Option String) (world : W) (calls : List Call)
  | polling (world : W) (calls : List Call)

/-- The loop `for running`.  The script holds, for each iteration, the events
polled in it; every iteration starts with `running` true. -/
def runLoop (gameState : State W) : List (List SdlEvent) → Loop W → Outcome W
  | [], l => Outcome.polling l.world l.calls
  | batch :: more, l =>
    let l1 := frame gameState batch l
    if l1.running then runLoop gameState more l1
    else Outcome.returned none l1.world l1.calls

/-- Go `GameLoop`.  `consoleReady` is `console.Ready` and `gameState` the
package variable, `none` for nil. -/
def GameLoop (consoleReady : Bool) (gameState : Option (State W))
    (input : List (List SdlEvent)) (world : W) : Outcome W :=
  let calls := [Call.LockOSThread]
  if !consoleReady then
    Outcome.returned
      (some "Console not set up. Run burl.console.Setup() before starting game loop!")
      world calls
  else
    match gameState with
    | none =>
      Outcome.returned
        (some "No gameState initialized. Run burl.InitState() before starting game loop!")
        world calls
    | some gs => runLoop gs input { running := true, world := world, calls := calls }

/-- The key codes of the key-up events of a batch, in polled order. -/
def keyUps : List SdlEvent → List Keycode
  | [] => []
  | .KeyUpEvent sym :: rest => sym :: keyUps rest
  | _ :: rest => keyUps rest

/-- The key codes passed to `HandleKeypress` in a list of calls, in call order. -/
def handledKeys : List Call → List Keycode
  | [] => []
  | .HandleKeypress key :: rest => key :: handledKeys rest
  | _ :: rest => handledKeys rest

/-- The state of the event queues after
`PushEvent(NewEvent(EV_QUIT, "bye"))` on `init`. -/
def sampleQuitQueued : Burl.State Unit :=
  { (Burl.init : Burl.State Unit) with
    eventStreamInternal := { buf := [Burl.NewEvent Burl.EV_QUIT "bye"], cap := 1000 } }

end Burl.Engine

/-! ## Lemmas on the operations of package `burl` -/

namespace Burl

variable {UIElem : Type}

theorem init_internalEvent_iff (k : EventType) :
    (init : State UIElem).internalEvent k = true ↔ k = EV_QUIT ∨ k = EV_CHANGE_STATE := by
  simp only [init, mapSet, emptyMap]
  by_cases h1 : k = EV_CHANGE_STATE
  · simp [h1]
  · by_cases h2 : k = EV_QUIT
    · simp [h1, h2]
    · simp [h1, h2]

theorem addEvent_room (e : Event UIElem) (c : Chan (Event UIElem)) (log : List String)
    (h : c.buf.length < c.cap) :
    addEvent e c log = some ({ c with buf := c.buf ++ [e] }, log) := by
  have hne : ¬ c.buf.length = c.cap := Nat.ne_of_lt h
  simp [addEvent, Chan.len, Chan.send, hne, h]

theorem addEvent_full (e : Event UIElem) (c : Chan (Event UIElem)) (log : List String)
    (h : c.buf.length = c.cap) :
    addEvent e c log
      = some (c, LogError "stream buffer overflow! all events flushed. Oh no." log) := by
  simp [addEvent, Chan.len, Chan.send, Chan.make, h]

theorem PushEvent_external (e : Event UIElem) (s : State UIElem)
    (hui : e.ID ≠ EV_UPDATE_UI) (hint : s.internalEvent e.ID = false)
    (hroom : s.eventStream.buf.length < s.eventStream.cap) :
    PushEvent e s
      = some { s with eventStream := { s.eventStream with buf := s.eventStream.buf ++ [e] } } := by
  simp [PushEvent, hui, hint, addEvent_room e s.eventStream s.errorLog hroom]

theorem PushEvent_internal (e : Event UIElem) (s : State UIElem)
    (hui : e.ID ≠ EV_UPDATE_UI) (hint : s.internalEvent e.ID = true)
    (hroom : s.eventStreamInternal.buf.length < s.eventStreamInternal.cap) :
    PushEvent e s
      = some { s with
          eventStreamInternal :=
            { s.eventStreamInternal with buf := s.eventStreamInternal.buf ++ [e] } } := by
  simp [PushEvent, hui, hint, addEvent_room e s.eventStreamInternal s.errorLog hroom]

theorem PopEvent_nil (s : State UIElem) (h : s.eventStream.buf = []) :
    PopEvent s = some (none, s) := by
  simp [PopEvent, Chan.len, h]

theorem PopEvent_cons (s : State UIElem) (e : Event UIElem) (r : List (Event UIElem))
    (h : s.eventStream.buf = e :: r) :
    PopEvent s = some (some e,
      if e.ID = EV_UPDATE_UI then
        { s with eventStream := { s.eventStream with buf := r },
                 uiEvents := mapSet s.uiEvents e.Message false }
      else { s with eventStream := { s.eventStream with buf := r } }) := by
  simp only [PopEvent, Chan.len, Chan.recv, h]
  by_cases hid : e.ID = EV_UPDATE_UI <;> simp [hid]

theorem popInternalEvent_nil (s : State UIElem) (h : s.eventStreamInternal.buf = []) :
    popInternalEvent s = some (none, s) := by
  simp [popInternalEvent, Chan.len, h]

theorem popInternalEvent_cons (s : State UIElem) (e : Event UIElem) (r : List (Event UIElem))
    (h : s.eventStreamInternal.buf = e :: r) :
    popInternalEvent s
      = some (some e, { s with eventStreamInternal := { s.eventStreamInternal with buf := r } }) := by
  simp [popInternalEvent, Chan.len, Chan.recv, h]

theorem pushAll_external (es : List (Event UIElem)) (s : State UIElem)
    (hes : ∀ e ∈ es, s.internalEvent e.ID = false ∧ e.ID ≠ EV_UPDATE_UI)
    (hlen : s.eventStream.buf.length + es.length ≤ s.eventStream.cap) :
    pushAll es s
      = some { s with eventStream := { s.eventStream with buf := s.eventStream.buf ++ es } } := by
  induction es generalizing s with
  | nil => simp [pushAll]
  | cons e es ih =>
    have he := hes e (List.mem_cons_self e es)
    have hroom : s.eventStream.buf.length < s.eventStream.cap := by
      simp only [List.length_cons] at hlen
      omega
    rw [pushAll, PushEvent_external e s he.2 he.1 hroom]
    simp only
    rw [ih]
    · simp
    · intro x hx
      exact hes x (List.mem_cons_of_mem e hx)
    · simp only [List.length_append, List.length_cons, List.length_nil] at hlen ⊢
      omega

theorem pushAll_internal (es : List (Event UIElem)) (s : State UIElem)
    (hes : ∀ e ∈ es, s.internalEvent e.ID = true ∧ e.ID ≠ EV_UPDATE_UI)
    (hlen : s.eventStreamInternal.buf.length + es.length ≤ s.eventStreamInternal.cap) :
    pushAll es s
      = some { s with
          eventStreamInternal :=
            { s.eventStreamInternal with buf := s.eventStreamInternal.buf ++ es } } := by
  induction es generalizing s with
  | nil => simp [pushAll]
  | cons e es ih =>
    have he := hes e (List.mem_cons_self e es)
    have hroom : s.eventStreamInternal.buf.length < s.eventStreamInternal.cap := by
      simp only [List.length_cons] at hlen
      omega
    rw [pushAll, PushEvent_internal e s he.2 he.1 hroom]
    simp only
    rw [ih]
    · simp
    · intro x hx
      exact hes x (List.mem_cons_of_mem e hx)
    · simp only [List.length_append, List.length_cons, List.length_nil] at hlen ⊢
      omega

theorem popN_front (l r : List (Event UIElem)) (s : State UIElem)
    (h : s.eventStream.buf = l ++ r) :
    ∃ s1, popN l.length s = some (l.map some, s1) ∧ s1.eventStream.buf = r := by
  induction l generalizing s with
  | nil => exact ⟨s, by simp [popN], by simpa using h⟩
  | cons e l ih =>
    have hpop := PopEvent_cons s e (l ++ r) (by simpa using h)
    obtain ⟨s1, h1, h2⟩ := ih _ (show (if e.ID = EV_UPDATE_UI then
        { s with eventStream := { s.eventStream with buf := l ++ r },
                 uiEvents := mapSet s.uiEvents e.Message false }
      else { s with eventStream := { s.eventStream with buf := l ++ r } }).eventStream.buf
        = l ++ r by split <;> rfl)
    refine ⟨s1, ?_, h2⟩
    simp only [List.length_cons, popN, hpop, h1, List.map_cons]

theorem popInternalN_front (l r : List (Event UIElem)) (s : State UIElem)
    (h : s.eventStreamInternal.buf = l ++ r) :
    ∃ s1, popInternalN l.length s = some (l.map some, s1) ∧ s1.eventStreamInternal.buf = r := by
  induction l generalizing s with
  | nil => exact ⟨s, by simp [popInternalN], by simpa using h⟩
  | cons e l ih =>
    have hpop := popInternalEvent_cons s e (l ++ r) (by simpa using h)
    obtain ⟨s1, h1, h2⟩ :=
      ih { s with eventStreamInternal := { s.eventStreamInternal with buf := l ++ r } } rfl
    refine ⟨s1, ?_, h2⟩
    simp only [List.length_cons, popInternalN, hpop, h1, List.map_cons]

theorem popN_drain (l : List (Event UIElem)) (s : State UIElem)
    (h : s.eventStream.buf = l) :
    ∃ s1, popN (l.length + 1) s = some (l.map some ++ [none], s1) := by
  induction l generalizing s with
  | nil => exact ⟨s, by simp [popN, PopEvent_nil s h]⟩
  | cons e l ih =>
    have hpop := PopEvent_cons s e l h
    obtain ⟨s1, h1⟩ := ih _ (show (if e.ID = EV_UPDATE_UI then
        { s with eventStream := { s.eventStream with buf := l },
                 uiEvents := mapSet s.uiEvents e.Message false }
      else { s with eventStream := { s.eventStream with buf := l } }).eventStream.buf
        = l by split <;> rfl)
    refine ⟨s1, ?_⟩
    rw [List.length_cons, popN, hpop]
    simp only [h1, List.map_cons, List.cons_append]

theorem popInternalN_drain (l : List (Event UIElem)) (s : State UIElem)
    (h : s.eventStreamInternal.buf = l) :
    ∃ s1, popInternalN (l.length + 1) s = some (l.map some ++ [none], s1) := by
  induction l generalizing s with
  | nil => exact ⟨s, by simp [popInternalN, popInternalEvent_nil s h]⟩
  | cons e l ih =>
    have hpop := popInternalEvent_cons s e l h
    obtain ⟨s1, h1⟩ :=
      ih { s with eventStreamInternal := { s.eventStreamInternal with buf := l } } rfl
    refine ⟨s1, ?_⟩
    rw [List.length_cons, popInternalN, hpop]
    simp only [h1, List.map_cons, List.cons_append]

end Burl

namespace Burl

variable {UIElem : Type}

theorem pushAll_append (a b : List (Event UIElem)) (s : State UIElem) :
    pushAll (a ++ b) s = (pushAll a s).bind (pushAll b) := by
  induction a generalizing s with
  | nil => simp [pushAll]
  | cons e a ih =>
    simp only [List.cons_append, pushAll]
    cases PushEvent e s with
    | none => simp
    | some s1 => simpa using ih s1

theorem PushEvent_external_full (e : Event UIElem) (s : State UIElem)
    (hui : e.ID ≠ EV_UPDATE_UI) (hint : s.internalEvent e.ID = false)
    (hfull : s.eventStream.buf.length = s.eventStream.cap) :
    PushEvent e s
      = some { s with
          errorLog :=
            LogError "stream buffer overflow! all events flushed. Oh no." s.errorLog } := by
  simp [PushEvent, hui, hint, addEvent_full e s.eventStream s.errorLog hfull]

/-- C1: from the freshly initialised state, pushing at most 1000 events of
non-internal kinds other than `EV_UPDATE_UI` and then calling `PopEvent` once
more than the number of events returns exactly the events pushed, in the order
pushed, followed by nil; the same holds for events of the internal kinds
`EV_QUIT` and `EV_CHANGE_STATE` with `popInternalEvent`. -/
theorem C1_fifo_per_stream (es ints : List (Event UIElem))
    (hlen : es.length ≤ 1000)
    (hes : ∀ e ∈ es, (init : State UIElem).internalEvent e.ID = false ∧ e.ID ≠ EV_UPDATE_UI)
    (hlenI : ints.length ≤ 1000)
    (hints : ∀ e ∈ ints, e.ID = EV_QUIT ∨ e.ID = EV_CHANGE_STATE) :
    (∃ s s1, pushAll es init = some s
        ∧ popN (es.length + 1) s = some (es.map some ++ [none], s1))
    ∧ (∃ s s1, pushAll ints init = some s
        ∧ popInternalN (ints.length + 1) s = some (ints.map some ++ [none], s1)) := by
  constructor
  · have hpush := pushAll_external es (init : State UIElem) hes
      (by simpa [init, Chan.make] using hlen)
    obtain ⟨s1, h1⟩ := popN_drain es
      { (init : State UIElem) with
        eventStream :=
          { (init : State UIElem).eventStream with
            buf := (init : State UIElem).eventStream.buf ++ es } }
      (by simp [init, Chan.make])
    exact ⟨_, s1, hpush, h1⟩
  · have hints1 : ∀ e ∈ ints,
        (init : State UIElem).internalEvent e.ID = true ∧ e.ID ≠ EV_UPDATE_UI := by
      intro e he
      have h := hints e he
      refine ⟨(init_internalEvent_iff e.ID).2 h, ?_⟩
      rcases h with h | h <;> rw [h] <;> decide
    have hpush := pushAll_internal ints (init : State UIElem) hints1
      (by simpa [init, Chan.make] using hlenI)
    obtain ⟨s1, h1⟩ := popInternalN_drain ints
      { (init : State UIElem) with
        eventStreamInternal :=
          { (init : State UIElem).eventStreamInternal with
            buf := (init : State UIElem).eventStreamInternal.buf ++ ints } }
      (by simp [init, Chan.make])
    exact ⟨_, s1, hpush, h1⟩

/-- Witness of C1: three application events and two engine events. -/
theorem C1_fifo_per_stream_witness :
    (∃ s s1,
        pushAll [NewEvent EV_TAB_FIELD "a", NewEvent EV_BUTTON_PRESS "b",
            NewEvent EV_LIST_CYCLE "c"] (init : State Unit) = some s
        ∧ popN 4 s = some ([some (NewEvent EV_TAB_FIELD "a"), some (NewEvent EV_BUTTON_PRESS "b"),
            some (NewEvent EV_LIST_CYCLE "c"), none], s1))
    ∧ (∃ s s1,
        pushAll [NewEvent EV_QUIT "", NewEvent EV_CHANGE_STATE "menu"] (init : State Unit) = some s
        ∧ popInternalN 3 s
            = some ([some (NewEvent EV_QUIT ""), some (NewEvent EV_CHANGE_STATE "menu"), none], s1)) :=
  C1_fifo_per_stream
    [NewEvent EV_TAB_FIELD "a", NewEvent EV_BUTTON_PRESS "b", NewEvent EV_LIST_CYCLE "c"]
    [NewEvent EV_QUIT "", NewEvent EV_CHANGE_STATE "menu"]
    (by decide) (by decide) (by decide) (by decide)

theorem pushAll_overflow_external (es : List (Event UIElem)) (e : Event UIElem)
    (hlen : es.length = 1000)
    (hes : ∀ x ∈ es, (init : State UIElem).internalEvent x.ID = false ∧ x.ID ≠ EV_UPDATE_UI)
    (he : (init : State UIElem).internalEvent e.ID = false ∧ e.ID ≠ EV_UPDATE_UI) :
    pushAll (es ++ [e]) (init : State UIElem)
      = some { (init : State UIElem) with
          eventStream := { buf := es, cap := 1000 }
          errorLog := ["stream buffer overflow! all events flushed. Oh no."] } := by
  have hpush := pushAll_external es (init : State UIElem) hes
    (by simp [init, Chan.make, hlen])
  rw [pushAll_append, hpush]
  simp only [Option.some_bind, pushAll]
  rw [PushEvent_external_full e
    { (init : State UIElem) with
      eventStream :=
        { (init : State UIElem).eventStream with
          buf := (init : State UIElem).eventStream.buf ++ es } }
    he.2 he.1 (by simp [init, Chan.make, hlen])]
  simp [init, Chan.make, LogError]

/-- C2: after 1000 events of kind `EV_TAB_FIELD` and one more event of kind
`EV_BUTTON_PRESS` have been pushed onto the freshly initialised state, the
external queue still holds the first 1000 events and not the 1001st: the next
`PopEvent` returns the oldest of them, and one overflow message is logged. -/
theorem C2_overflow_drops_new_event :
    ∃ s : State Unit,
      pushAll (List.replicate 1000 (NewEvent EV_TAB_FIELD "old") ++ [NewEvent EV_BUTTON_PRESS "new"])
          init = some s
      ∧ s.eventStream.buf = List.replicate 1000 (NewEvent EV_TAB_FIELD "old")
      ∧ s.eventStream.buf.length = 1000
      ∧ NewEvent EV_BUTTON_PRESS "new" ∉ s.eventStream.buf
      ∧ (PopEvent s).map Prod.fst = some (some (NewEvent EV_TAB_FIELD "old"))
      ∧ s.errorLog = ["stream buffer overflow! all events flushed. Oh no."] := by
  have hpush := pushAll_overflow_external (List.replicate 1000 (NewEvent EV_TAB_FIELD "old"))
    (NewEvent EV_BUTTON_PRESS "new" : Event Unit) (List.length_replicate _ _)
    (by
      intro x hx
      rw [List.eq_of_mem_replicate hx]
      decide)
    (by decide)
  refine ⟨_, hpush, rfl, List.length_replicate _ _, ?_, ?_, rfl⟩
  · intro hmem
    have hid := congrArg Event.ID (List.eq_of_mem_replicate hmem)
    revert hid
    decide
  · rw [PopEvent_cons _ (NewEvent EV_TAB_FIELD "old")
      (List.replicate 999 (NewEvent EV_TAB_FIELD "old")) rfl]
    rfl

end Burl

/-! ## The invariant of package `burl` -/

namespace Burl

variable {UIElem : Type}

theorem PushEvent_internal_full (e : Event UIElem) (s : State UIElem)
    (hui : e.ID ≠ EV_UPDATE_UI) (hint : s.internalEvent e.ID = true)
    (hfull : s.eventStreamInternal.buf.length = s.eventStreamInternal.cap) :
    PushEvent e s
      = some { s with
          errorLog :=
            LogError "stream buffer overflow! all events flushed. Oh no." s.errorLog } := by
  simp [PushEvent, hui, hint, addEvent_full e s.eventStreamInternal s.errorLog hfull]

theorem PushEvent_refresh_pending (e : Event UIElem) (s : State UIElem)
    (hui : e.ID = EV_UPDATE_UI) (hp : s.uiEvents e.Message = true) :
    PushEvent e s = some s := by
  simp [PushEvent, hui, hp]

theorem PushEvent_refresh_room (e : Event UIElem) (s : State UIElem)
    (hui : e.ID = EV_UPDATE_UI) (hp : s.uiEvents e.Message = false)
    (hint : s.internalEvent EV_UPDATE_UI = false)
    (hroom : s.eventStream.buf.length < s.eventStream.cap) :
    PushEvent e s
      = some { s with
          uiEvents := mapSet s.uiEvents e.Message true
          eventStream := { s.eventStream with buf := s.eventStream.buf ++ [e] } } := by
  simp [PushEvent, hui, hp, hint, addEvent_room e s.eventStream s.errorLog hroom]

theorem PushEvent_refresh_full (e : Event UIElem) (s : State UIElem)
    (hui : e.ID = EV_UPDATE_UI) (hp : s.uiEvents e.Message = false)
    (hint : s.internalEvent EV_UPDATE_UI = false)
    (hfull : s.eventStream.buf.length = s.eventStream.cap) :
    PushEvent e s
      = some { s with
          uiEvents := mapSet s.uiEvents e.Message true
          errorLog :=
            LogError "stream buffer overflow! all events flushed. Oh no." s.errorLog } := by
  simp [PushEvent, hui, hp, hint, addEvent_full e s.eventStream s.errorLog hfull]

theorem refreshCount_append (k : String) (a b : List (Event UIElem)) :
    refreshCount k (a ++ b) = refreshCount k a + refreshCount k b := by
  simp [refreshCount, List.countP_append]

theorem refreshCount_eq_zero_of_not_pending (s : State UIElem) (hinv : Inv s) (k : String)
    (hp : s.uiEvents k = false) : refreshCount k s.eventStream.buf = 0 := by
  simp only [refreshCount, List.countP_eq_zero, decide_eq_true_eq, not_and]
  intro e he hid hk
  have := hinv.pending e he hid
  rw [hk, hp] at this
  exact Bool.noConfusion this

theorem Inv.flag_refresh {s : State UIElem} (hinv : Inv s) :
    s.internalEvent EV_UPDATE_UI = false := by
  cases h : s.internalEvent EV_UPDATE_UI with
  | false => rfl
  | true =>
    have := (hinv.flags EV_UPDATE_UI).1 h
    revert this
    decide

/-- A state that differs from one satisfying the invariant only in the log and
in keys newly marked pending satisfies it too. -/
theorem Inv.of_same_queues {s s1 : State UIElem} (hinv : Inv s)
    (h1 : s1.internalEvent = s.internalEvent) (h2 : s1.eventStream = s.eventStream)
    (h3 : s1.eventStreamInternal = s.eventStreamInternal)
    (h4 : s1.customEventNum = s.customEventNum)
    (h5 : ∀ k, s.uiEvents k = true → s1.uiEvents k = true) : Inv s1 where
  flags := by rw [h1]; exact hinv.flags
  capExt := by rw [h2]; exact hinv.capExt
  capInt := by rw [h3]; exact hinv.capInt
  lenExt := by rw [h2]; exact hinv.lenExt
  lenInt := by rw [h3]; exact hinv.lenInt
  extKinds := by rw [h1, h2]; exact hinv.extKinds
  intKinds := by rw [h1, h3]; exact hinv.intKinds
  pending := by
    rw [h2]
    intro e he hid
    exact h5 _ (hinv.pending e he hid)
  single := by rw [h2]; exact hinv.single
  counter := by rw [h4]; exact hinv.counter

theorem Inv_init : Inv (init : State UIElem) where
  flags := init_internalEvent_iff
  capExt := rfl
  capInt := rfl
  lenExt := by simp [init, Chan.make]
  lenInt := by simp [init, Chan.make]
  extKinds := by simp [init, Chan.make]
  intKinds := by simp [init, Chan.make]
  pending := by simp [init, Chan.make]
  single := by simp [init, Chan.make, refreshCount]
  counter := by simp [init]

theorem Inv_push {s s1 : State UIElem} (e : Event UIElem) (hinv : Inv s)
    (h : PushEvent e s = some s1) : Inv s1 := by
  by_cases hui : e.ID = EV_UPDATE_UI
  · cases hp : s.uiEvents e.Message with
    | true =>
      rw [PushEvent_refresh_pending e s hui hp] at h
      cases h
      exact hinv
    | false =>
      by_cases hfull : s.eventStream.buf.length = s.eventStream.cap
      · rw [PushEvent_refresh_full e s hui hp hinv.flag_refresh hfull] at h
        cases h
        refine hinv.of_same_queues rfl rfl rfl rfl ?_
        intro k hk
        simp only [mapSet]
        split
        · rfl
        · exact hk
      · have hroom : s.eventStream.buf.length < s.eventStream.cap := by
          have h1 := hinv.lenExt
          have h2 := hinv.capExt
          omega
        rw [PushEvent_refresh_room e s hui hp hinv.flag_refresh hroom] at h
        cases h
        have hcap := hinv.capExt
        exact
          { flags := hinv.flags
            capExt := hinv.capExt
            capInt := hinv.capInt
            lenExt := by
              simp only [List.length_append, List.length_singleton]
              omega
            lenInt := hinv.lenInt
            extKinds := by
              intro x hx
              simp only [List.mem_append, List.mem_singleton] at hx
              rcases hx with hx | hx
              · exact hinv.extKinds x hx
              · rw [hx, hui]
                exact hinv.flag_refresh
            intKinds := hinv.intKinds
            pending := by
              intro x hx hid
              simp only [List.mem_append, List.mem_singleton] at hx
              simp only [mapSet]
              split
              · rfl
              · rcases hx with hx | hx
                · exact hinv.pending x hx hid
                · rename_i hne
                  exact absurd (by rw [hx]) hne
            single := by
              intro k
              simp only [refreshCount_append]
              by_cases hk : e.Message = k
              · have h0 := refreshCount_eq_zero_of_not_pending s hinv k (by rw [← hk]; exact hp)
                rw [h0]
                simp only [refreshCount, zero_add]
                exact List.countP_le_length _
              · have h0 : refreshCount k [e] = 0 := by
                  simp [refreshCount, hk]
                rw [h0]
                exact hinv.single k
            counter := hinv.counter }
  · cases hint : s.internalEvent e.ID with
    | true =>
      by_cases hfull : s.eventStreamInternal.buf.length = s.eventStreamInternal.cap
      · rw [PushEvent_internal_full e s hui hint hfull] at h
        cases h
        exact hinv.of_same_queues rfl rfl rfl rfl (fun _ hk => hk)
      · have hroom : s.eventStreamInternal.buf.length < s.eventStreamInternal.cap := by
          have h1 := hinv.lenInt
          have h2 := hinv.capInt
          omega
        rw [PushEvent_internal e s hui hint hroom] at h
        cases h
        have hcap := hinv.capInt
        exact
          { flags := hinv.flags
            capExt := hinv.capExt
            capInt := hinv.capInt
            lenExt := hinv.lenExt
            lenInt := by
              simp only [List.length_append, List.length_singleton]
              omega
            extKinds := hinv.extKinds
            intKinds := by
              intro x hx
              simp only [List.mem_append, List.mem_singleton] at hx
              rcases hx with hx | hx
              · exact hinv.intKinds x hx
              · rw [hx]
                exact hint
            pending := hinv.pending
            single := hinv.single
            counter := hinv.counter }
    | false =>
      by_cases hfull : s.eventStream.buf.length = s.eventStream.cap
      · rw [PushEvent_external_full e s hui hint hfull] at h
        cases h
        exact hinv.of_same_queues rfl rfl rfl rfl (fun _ hk => hk)
      · have hroom : s.eventStream.buf.length < s.eventStream.cap := by
          have h1 := hinv.lenExt
          have h2 := hinv.capExt
          omega
        rw [PushEvent_external e s hui hint hroom] at h
        cases h
        have hcap := hinv.capExt
        exact
          { flags := hinv.flags
            capExt := hinv.capExt
            capInt := hinv.capInt
            lenExt := by
              simp only [List.length_append, List.length_singleton]
              omega
            lenInt := hinv.lenInt
            extKinds := by
              intro x hx
              simp only [List.mem_append, List.mem_singleton] at hx
              rcases hx with hx | hx
              · exact hinv.extKinds x hx
              · rw [hx]
                exact hint
            intKinds := hinv.intKinds
            pending := by
              intro x hx hid
              simp only [List.mem_append, List.mem_singleton] at hx
              rcases hx with hx | hx
              · exact hinv.pending x hx hid
              · rw [hx] at hid
                exact absurd hid hui
            single := by
              intro k
              have h0 : refreshCount k [e] = 0 := by
                simp [refreshCount, hui]
              simp only [refreshCount_append, h0]
              exact hinv.single k
            counter := hinv.counter }

end Burl

namespace Burl

variable {UIElem : Type}

theorem Inv_pop {s s1 : State UIElem} {r : Option (Event UIElem)} (hinv : Inv s)
    (h : PopEvent s = some (r, s1)) : Inv s1 := by
  cases hbuf : s.eventStream.buf with
  | nil =>
    rw [PopEvent_nil s hbuf] at h
    cases h
    exact hinv
  | cons e rest =>
    rw [PopEvent_cons s e rest hbuf] at h
    have hlen := hinv.lenExt
    have hext := hinv.extKinds
    have hpend := hinv.pending
    have hsingle := hinv.single
    rw [hbuf] at hlen hext hpend hsingle
    have hlen1 : rest.length ≤ 1000 := by
      simp only [List.length_cons] at hlen
      omega
    by_cases hui : e.ID = EV_UPDATE_UI
    · rw [if_pos hui] at h
      cases h
      exact
        { flags := hinv.flags
          capExt := hinv.capExt
          capInt := hinv.capInt
          lenExt := hlen1
          lenInt := hinv.lenInt
          extKinds := fun x hx => hext x (List.mem_cons_of_mem e hx)
          intKinds := hinv.intKinds
          pending := by
            intro x hx hid
            simp only [mapSet]
            split
            · rename_i hmsg
              have h1 := hsingle e.Message
              have h2 : 0 < refreshCount e.Message rest := by
                simp only [refreshCount]
                exact List.countP_pos_iff.2 ⟨x, hx, by simp [hid, hmsg]⟩
              simp only [refreshCount, List.countP_cons, hui, and_self, decide_True,
                if_true] at h1 h2
              omega
            · exact hpend x (List.mem_cons_of_mem e hx) hid
          single := by
            intro k
            have h1 := hsingle k
            simp only [refreshCount, List.countP_cons] at h1 ⊢
            omega
          counter := hinv.counter }
    · rw [if_neg hui] at h
      cases h
      exact
        { flags := hinv.flags
          capExt := hinv.capExt
          capInt := hinv.capInt
          lenExt := hlen1
          lenInt := hinv.lenInt
          extKinds := fun x hx => hext x (List.mem_cons_of_mem e hx)
          intKinds := hinv.intKinds
          pending := fun x hx hid => hpend x (List.mem_cons_of_mem e hx) hid
          single := by
            intro k
            have h1 := hsingle k
            simp only [refreshCount, List.countP_cons] at h1 ⊢
            omega
          counter := hinv.counter }

theorem Inv_popInternal {s s1 : State UIElem} {r : Option (Event UIElem)} (hinv : Inv s)
    (h : popInternalEvent s = some (r, s1)) : Inv s1 := by
  cases hbuf : s.eventStreamInternal.buf with
  | nil =>
    rw [popInternalEvent_nil s hbuf] at h
    cases h
    exact hinv
  | cons e rest =>
    rw [popInternalEvent_cons s e rest hbuf] at h
    cases h
    have hlen := hinv.lenInt
    have hint := hinv.intKinds
    rw [hbuf] at hlen hint
    exact
      { flags := hinv.flags
        capExt := hinv.capExt
        capInt := hinv.capInt
        lenExt := hinv.lenExt
        lenInt := by
          simp only [List.length_cons] at hlen
          show rest.length ≤ 1000
          omega
        extKinds := hinv.extKinds
        intKinds := fun x hx => hint x (List.mem_cons_of_mem e hx)
        pending := hinv.pending
        single := hinv.single
        counter := hinv.counter }

theorem Inv_clear {s : State UIElem} (hinv : Inv s) : Inv (ClearEvents s) where
  flags := hinv.flags
  capExt := rfl
  capInt := hinv.capInt
  lenExt := by simp [ClearEvents, Chan.make]
  lenInt := hinv.lenInt
  extKinds := by simp [ClearEvents, Chan.make]
  intKinds := hinv.intKinds
  pending := by simp [ClearEvents, Chan.make]
  single := by simp [ClearEvents, Chan.make, refreshCount]
  counter := hinv.counter

theorem Inv_clearInternal {s : State UIElem} (hinv : Inv s) : Inv (clearEventsInternal s) where
  flags := hinv.flags
  capExt := hinv.capExt
  capInt := rfl
  lenExt := hinv.lenExt
  lenInt := by simp [clearEventsInternal, Chan.make]
  extKinds := hinv.extKinds
  intKinds := by simp [clearEventsInternal, Chan.make]
  pending := hinv.pending
  single := hinv.single
  counter := hinv.counter

theorem Inv_register {s : State UIElem} (hinv : Inv s) : Inv (RegisterCustomEvent s).2 where
  flags := hinv.flags
  capExt := hinv.capExt
  capInt := hinv.capInt
  lenExt := hinv.lenExt
  lenInt := hinv.lenInt
  extKinds := hinv.extKinds
  intKinds := hinv.intKinds
  pending := hinv.pending
  single := hinv.single
  counter := by
    have := hinv.counter
    simp only [RegisterCustomEvent]
    omega

theorem Reachable.inv {s : State UIElem} (h : Reachable s) : Inv s := by
  induction h with
  | start => exact Inv_init
  | push e _ hp ih => exact Inv_push e ih hp
  | pop _ hp ih => exact Inv_pop ih hp
  | popInternal _ hp ih => exact Inv_popInternal ih hp
  | clear _ ih => exact Inv_clear ih
  | clearInternal _ ih => exact Inv_clearInternal ih
  | register _ ih => exact Inv_register ih

end Burl

/-! ## Claims on package `burl` -/

namespace Burl

variable {UIElem : Type}

theorem sampleRefreshQueued_push :
    PushEvent (NewEvent EV_UPDATE_UI "hp_bar") (init : State Unit) = some sampleRefreshQueued := by
  rw [PushEvent_refresh_room _ _ rfl rfl rfl (by decide)]
  rfl

theorem sampleRefreshQueued_reachable : Reachable sampleRefreshQueued :=
  Reachable.push _ Reachable.start sampleRefreshQueued_push

theorem sampleRefreshQueued_pop :
    PopEvent sampleRefreshQueued
      = some (some (NewEvent EV_UPDATE_UI "hp_bar"), sampleRefreshPopped) := by
  rw [PopEvent_cons sampleRefreshQueued (NewEvent EV_UPDATE_UI "hp_bar") [] rfl]
  rfl

/-- C3: in a state the package can be in, where key `k` is not marked pending
and the external queue holds fewer than 1000 events, two consecutive calls of
`PushEvent` with refresh events of message `k` leave exactly one refresh event
with message `k` in the external queue, and the second call returns the state
it was given unchanged. -/
theorem C3_refresh_dedup_idempotent (s : State UIElem) (hs : Reachable s) (k : String)
    (e1 e2 : Event UIElem)
    (h1 : e1.ID = EV_UPDATE_UI ∧ e1.Message = k) (h2 : e2.ID = EV_UPDATE_UI ∧ e2.Message = k)
    (hp : s.uiEvents k = false) (hlen : s.eventStream.buf.length < 1000) :
    ∃ s1, PushEvent e1 s = some s1
      ∧ PushEvent e2 s1 = some s1
      ∧ s1.eventStream.buf = s.eventStream.buf ++ [e1]
      ∧ refreshCount k s1.eventStream.buf = 1 := by
  have hinv := hs.inv
  have hroom : s.eventStream.buf.length < s.eventStream.cap := by
    rw [hinv.capExt]
    exact hlen
  have hp1 : s.uiEvents e1.Message = false := by
    rw [h1.2]
    exact hp
  refine ⟨_, PushEvent_refresh_room e1 s h1.1 hp1 hinv.flag_refresh hroom, ?_, rfl, ?_⟩
  · apply PushEvent_refresh_pending e2 _ h2.1
    simp [mapSet, h1.2, h2.2]
  · have h0 := refreshCount_eq_zero_of_not_pending s hinv k hp
    simp only [refreshCount_append, h0, zero_add]
    simp [refreshCount, h1.1, h1.2]

/-- Witness of C3: the key "hp_bar" pushed twice onto the initial state. -/
theorem C3_refresh_dedup_idempotent_witness :
    ∃ s1 : State Unit,
      PushEvent (NewEvent EV_UPDATE_UI "hp_bar") init = some s1
      ∧ PushEvent (NewEvent EV_UPDATE_UI "hp_bar") s1 = some s1
      ∧ s1.eventStream.buf = (init : State Unit).eventStream.buf ++ [NewEvent EV_UPDATE_UI "hp_bar"]
      ∧ refreshCount "hp_bar" s1.eventStream.buf = 1 :=
  C3_refresh_dedup_idempotent init Reachable.start "hp_bar" (NewEvent EV_UPDATE_UI "hp_bar")
    (NewEvent EV_UPDATE_UI "hp_bar") ⟨rfl, rfl⟩ ⟨rfl, rfl⟩ rfl (by decide)

/-- C4: in a state the package can be in, if `PopEvent` returns a refresh
event with message `k`, then a `PushEvent` of a refresh event with message `k`
that follows immediately appends that event to the external queue, and after
the events ahead of it have been popped the next `PopEvent` returns it. -/
theorem C4_dedup_window_closes_on_pop (s s1 : State UIElem) (hs : Reachable s)
    (e e1 : Event UIElem) (hpop : PopEvent s = some (some e, s1))
    (hid : e.ID = EV_UPDATE_UI) (hid1 : e1.ID = EV_UPDATE_UI) (hmsg : e1.Message = e.Message) :
    ∃ s2, PushEvent e1 s1 = some s2
      ∧ s2.eventStream.buf = s1.eventStream.buf ++ [e1]
      ∧ ∃ s3 s4, popN s1.eventStream.buf.length s2 = some (s1.eventStream.buf.map some, s3)
          ∧ PopEvent s3 = some (some e1, s4) := by
  have hinv1 : Inv s1 := Inv_pop hs.inv hpop
  have hinv := hs.inv
  have hp1 : s1.uiEvents e1.Message = false := by
    cases hbuf : s.eventStream.buf with
    | nil =>
      rw [PopEvent_nil s hbuf] at hpop
      cases hpop
    | cons x rest =>
      rw [PopEvent_cons s x rest hbuf] at hpop
      simp only [Option.some.injEq, Prod.mk.injEq] at hpop
      obtain ⟨hx, hs1⟩ := hpop
      subst hx
      rw [if_pos hid] at hs1
      subst hs1
      simp [mapSet, hmsg]
  have hroom : s1.eventStream.buf.length < s1.eventStream.cap := by
    cases hbuf : s.eventStream.buf with
    | nil =>
      rw [PopEvent_nil s hbuf] at hpop
      cases hpop
    | cons x rest =>
      have hlen := hinv.lenExt
      have hcap := hinv.capExt
      rw [PopEvent_cons s x rest hbuf] at hpop
      simp only [Option.some.injEq, Prod.mk.injEq] at hpop
      obtain ⟨hx, hs1⟩ := hpop
      subst hx
      rw [if_pos hid] at hs1
      subst hs1
      rw [hbuf] at hlen
      simp only [List.length_cons] at hlen
      show rest.length < s.eventStream.cap
      omega
  have hpush := PushEvent_refresh_room e1 s1 hid1 hp1 hinv1.flag_refresh hroom
  refine ⟨_, hpush, rfl, ?_⟩
  obtain ⟨s3, h3, hbuf3⟩ := popN_front s1.eventStream.buf [e1]
    { s1 with
      uiEvents := mapSet s1.uiEvents e1.Message true
      eventStream := { s1.eventStream with buf := s1.eventStream.buf ++ [e1] } } rfl
  exact ⟨s3, _, h3, PopEvent_cons s3 e1 [] hbuf3⟩

/-- Witness of C4: "hp_bar" is queued, popped and pushed again. -/
theorem C4_dedup_window_closes_on_pop_witness :
    PopEvent sampleRefreshQueued
        = some (some (NewEvent EV_UPDATE_UI "hp_bar"), sampleRefreshPopped)
    ∧ ∃ s2, PushEvent (NewEvent EV_UPDATE_UI "hp_bar") sampleRefreshPopped = some s2
      ∧ s2.eventStream.buf = sampleRefreshPopped.eventStream.buf ++ [NewEvent EV_UPDATE_UI "hp_bar"]
      ∧ ∃ s3 s4,
          popN sampleRefreshPopped.eventStream.buf.length s2
            = some (sampleRefreshPopped.eventStream.buf.map some, s3)
          ∧ PopEvent s3 = some (some (NewEvent EV_UPDATE_UI "hp_bar"), s4) :=
  ⟨sampleRefreshQueued_pop,
    C4_dedup_window_closes_on_pop sampleRefreshQueued sampleRefreshPopped
      sampleRefreshQueued_reachable (NewEvent EV_UPDATE_UI "hp_bar")
      (NewEvent EV_UPDATE_UI "hp_bar") sampleRefreshQueued_pop rfl rfl rfl⟩

end Burl

namespace Burl

variable {UIElem : Type}

theorem popInternalEvent_some_mem {s s1 : State UIElem} {e : Event UIElem}
    (h : popInternalEvent s = some (some e, s1)) : e ∈ s.eventStreamInternal.buf := by
  cases hbuf : s.eventStreamInternal.buf with
  | nil =>
    rw [popInternalEvent_nil s hbuf] at h
    cases h
  | cons x rest =>
    rw [popInternalEvent_cons s x rest hbuf] at h
    simp only [Option.some.injEq, Prod.mk.injEq] at h
    rw [← h.1]
    exact List.mem_cons_self x rest

theorem registerN_spec (n : Nat) (s : State UIElem) :
    (registerN n s).1.length = n
    ∧ (registerN n s).1.Pairwise (fun a b => a < b)
    ∧ ∀ k ∈ (registerN n s).1, EV_MAX_EVENTS + s.customEventNum < k := by
  induction n generalizing s with
  | zero => simp [registerN]
  | succ n ih =>
    obtain ⟨h1, h2, h3⟩ := ih (RegisterCustomEvent s).2
    refine ⟨by simp [registerN, h1], ?_, ?_⟩
    · simp only [registerN, List.pairwise_cons]
      refine ⟨?_, h2⟩
      intro k hk
      have := h3 k hk
      simp only [RegisterCustomEvent] at this ⊢
      exact this
    · intro k hk
      simp only [registerN, List.mem_cons] at hk
      rcases hk with hk | hk
      · rw [hk]
        simp only [RegisterCustomEvent, EV_MAX_EVENTS, EventType]
        omega
      · have := h3 k hk
        simp only [RegisterCustomEvent, EV_MAX_EVENTS, EventType] at this ⊢
        omega

/-- C6: `RegisterCustomEvent` called `n` times in a row, in any state
reachable from `init` and with integers unbounded, returns `n` values that
increase strictly from call to call, hence are pairwise distinct, and none of
them is a built-in kind (0 to 6) or the sentinel `EV_MAX_EVENTS`. -/
theorem C6_register_distinct (s : State UIElem) (hs : Reachable s) (n : Nat) :
    (registerN n s).1.length = n
    ∧ (registerN n s).1.Pairwise (fun a b => a < b)
    ∧ (registerN n s).1.Nodup
    ∧ ∀ k ∈ (registerN n s).1, k ∉ builtinKinds ∧ k ≠ EV_MAX_EVENTS := by
  obtain ⟨h1, h2, h3⟩ := registerN_spec n s
  refine ⟨h1, h2, h2.imp (fun h => ne_of_lt h), ?_⟩
  intro k hk
  have hgt := h3 k hk
  have hc := hs.inv.counter
  simp only [EV_MAX_EVENTS, EventType] at hgt ⊢
  refine ⟨?_, by omega⟩
  simp only [builtinKinds, EV_UPDATE_UI, EV_CHANGE_STATE, EV_QUIT, EV_TAB_FIELD,
    EV_ANIMATION_DONE, EV_BUTTON_PRESS, EV_LIST_CYCLE, List.mem_cons, List.mem_singleton,
    List.mem_nil_iff, or_false, not_or]
  omega

/-- Witness of C6: three registrations on the initial state. -/
theorem C6_register_distinct_witness :
    (registerN 3 (init : State Unit)).1.length = 3
    ∧ (registerN 3 (init : State Unit)).1.Pairwise (fun a b => a < b)
    ∧ (registerN 3 (init : State Unit)).1.Nodup
    ∧ ∀ k ∈ (registerN 3 (init : State Unit)).1, k ∉ builtinKinds ∧ k ≠ EV_MAX_EVENTS :=
  C6_register_distinct init Reachable.start 3

/-- C7: in every state reachable from `init`, for every message key `k` the
external queue holds at most one refresh event with message `k`. -/
theorem C7_at_most_one_refresh_per_key (s : State UIElem) (hs : Reachable s) (k : String) :
    refreshCount k s.eventStream.buf ≤ 1 :=
  hs.inv.single k

/-- Witness of C7: the state in which "hp_bar" is queued. -/
theorem C7_at_most_one_refresh_per_key_witness :
    refreshCount "hp_bar" sampleRefreshQueued.eventStream.buf ≤ 1 :=
  C7_at_most_one_refresh_per_key sampleRefreshQueued sampleRefreshQueued_reachable "hp_bar"

/-- C8: after `PushEvent` of a refresh event with message "hp_bar" on the
initial state followed by `ClearEvents`, the external queue is empty while
"hp_bar" is still marked pending, and a further `PushEvent` of a refresh event
with that message is dropped: the state stays as it is. -/
theorem C8_pending_outlives_clear :
    Reachable (ClearEvents sampleRefreshQueued)
    ∧ pushAll [NewEvent EV_UPDATE_UI "hp_bar"] (init : State Unit) = some sampleRefreshQueued
    ∧ (ClearEvents sampleRefreshQueued).eventStream.buf = []
    ∧ (ClearEvents sampleRefreshQueued).uiEvents "hp_bar" = true
    ∧ PushEvent (NewEvent EV_UPDATE_UI "hp_bar") (ClearEvents sampleRefreshQueued)
        = some (ClearEvents sampleRefreshQueued) := by
  refine ⟨Reachable.clear sampleRefreshQueued_reachable, ?_, rfl, ?_, ?_⟩
  · simp only [pushAll, sampleRefreshQueued_push]
  · simp [ClearEvents, sampleRefreshQueued, mapSet]
  · apply PushEvent_refresh_pending _ _ rfl
    simp [ClearEvents, sampleRefreshQueued, mapSet, NewEvent]

end Burl

/-! ## Claims on package `ui` -/

namespace UI

variable {UIElem : Type}

theorem ui_PushEvent_room (c : Option UIElem) (id : Int) (m : String) (s : State UIElem)
    (hroom : s.EventStream.buf.length < s.EventStream.cap) :
    PushEvent c id m s
      = some { s with
          EventStream := { s.EventStream with buf := s.EventStream.buf ++ [mkEvent (c, id, m)] } } := by
  have hne : ¬ s.EventStream.buf.length = s.EventStream.cap := Nat.ne_of_lt hroom
  simp [PushEvent, Chan.len, Chan.send, hne, hroom, mkEvent]

theorem ui_PushEvent_full (c : Option UIElem) (id : Int) (m : String) (s : State UIElem)
    (hfull : s.EventStream.buf.length = s.EventStream.cap) :
    PushEvent c id m s
      = some { EventStream := { buf := [mkEvent (c, id, m)], cap := 100 }
               errorLog := LogError "UI Eventstream limit reached! FLUSHY FLUSHY." s.errorLog } := by
  simp [PushEvent, Chan.len, Chan.send, Chan.make, ClearEvents, hfull, mkEvent]

theorem ui_PopEvent_nil (s : State UIElem) (h : s.EventStream.buf = []) :
    PopEvent s = some (none, s) := by
  simp [PopEvent, Chan.len, h]

theorem ui_PopEvent_cons (s : State UIElem) (e : Event UIElem) (r : List (Event UIElem))
    (h : s.EventStream.buf = e :: r) :
    PopEvent s = some (some e, { s with EventStream := { s.EventStream with buf := r } }) := by
  simp [PopEvent, Chan.len, Chan.recv, h]

theorem ui_pushAll_append (a b : List (Option UIElem × Int × String)) (s : State UIElem) :
    pushAll (a ++ b) s = (pushAll a s).bind (pushAll b) := by
  induction a generalizing s with
  | nil => simp [pushAll]
  | cons t a ih =>
    simp only [List.cons_append, pushAll]
    cases PushEvent t.1 t.2.1 t.2.2 s with
    | none => simp
    | some s1 => simpa using ih s1

theorem ui_pushAll_room (ts : List (Option UIElem × Int × String)) (s : State UIElem)
    (hlen : s.EventStream.buf.length + ts.length ≤ s.EventStream.cap) :
    pushAll ts s
      = some { s with
          EventStream := { s.EventStream with buf := s.EventStream.buf ++ ts.map mkEvent } } := by
  induction ts generalizing s with
  | nil => simp [pushAll]
  | cons t ts ih =>
    have hroom : s.EventStream.buf.length < s.EventStream.cap := by
      simp only [List.length_cons] at hlen
      omega
    rw [pushAll, ui_PushEvent_room t.1 t.2.1 t.2.2 s hroom]
    simp only
    rw [ih]
    · simp
    · simp only [List.length_append, List.length_cons, List.length_nil] at hlen ⊢
      omega

theorem ui_popN_all (l : List (Event UIElem)) (s : State UIElem) (h : s.EventStream.buf = l) :
    ∃ s1, popN (l.length + 1) s = some (l.map some ++ [none], s1) := by
  induction l generalizing s with
  | nil => exact ⟨s, by simp [popN, ui_PopEvent_nil s h]⟩
  | cons e l ih =>
    have hpop := ui_PopEvent_cons s e l h
    obtain ⟨s1, h1⟩ := ih { s with EventStream := { s.EventStream with buf := l } } rfl
    refine ⟨s1, ?_⟩
    rw [List.length_cons, popN, hpop]
    simp only [h1, List.map_cons, List.cons_append]

/-- C9: starting from an empty `EventStream` of capacity 100, after 101
consecutive calls of `ui.PushEvent` the stream holds one event, the one built
from the arguments of the 101st call; the next `ui.PopEvent` returns that
event and the one after returns nil. -/
theorem C9_ui_overflow_keeps_trigger (s : State UIElem)
    (ts : List (Option UIElem × Int × String)) (t : Option UIElem × Int × String)
    (hempty : s.EventStream.buf = []) (hcap : s.EventStream.cap = 100)
    (hlen : ts.length = 100) :
    ∃ s1, pushAll (ts ++ [t]) s = some s1
      ∧ s1.EventStream.buf = [mkEvent t]
      ∧ s1.EventStream.buf.length = 1
      ∧ ∃ s2 s3, PopEvent s1 = some (some (mkEvent t), s2) ∧ PopEvent s2 = some (none, s3) := by
  have hpush := ui_pushAll_room ts s (by simp [hempty, hcap, hlen])
  have hfull := ui_PushEvent_full t.1 t.2.1 t.2.2
    { s with EventStream := { s.EventStream with buf := s.EventStream.buf ++ ts.map mkEvent } }
    (by simp [hempty, hcap, hlen])
  refine ⟨{ EventStream := { buf := [mkEvent t], cap := 100 }
            errorLog := LogError "UI Eventstream limit reached! FLUSHY FLUSHY." s.errorLog },
    ?_, rfl, rfl, _, _, ui_PopEvent_cons _ (mkEvent t) [] rfl, ui_PopEvent_nil _ rfl⟩
  rw [ui_pushAll_append, hpush]
  simp only [Option.some_bind, pushAll, hfull]

/-- Witness of C9: a hundred activations and then one change notification. -/
theorem C9_ui_overflow_keeps_trigger_witness :
    ∃ s1 : State Unit,
      pushAll (List.replicate 100 (none, 1, "ok") ++ [(none, 2, "name")]) init = some s1
      ∧ s1.EventStream.buf = [mkEvent (none, 2, "name")]
      ∧ s1.EventStream.buf.length = 1
      ∧ ∃ s2 s3, PopEvent s1 = some (some (mkEvent (none, 2, "name")), s2)
          ∧ PopEvent s2 = some (none, s3) :=
  C9_ui_overflow_keeps_trigger init (List.replicate 100 (none, 1, "ok")) (none, 2, "name")
    rfl rfl (List.length_replicate _ _)

/-- C10: starting from an empty `EventStream` of capacity 100, calling
`ui.PushEvent` on each of at most 100 triples in order and then `ui.PopEvent`
once more than the number of triples returns the events built from those
triples, in the order pushed and each once, followed by nil; equal triples
are not merged. -/
theorem C10_ui_fifo (s : State UIElem) (ts : List (Option UIElem × Int × String))
    (hempty : s.EventStream.buf = []) (hcap : s.EventStream.cap = 100)
    (hlen : ts.length ≤ 100) :
    ∃ s1 s2, pushAll ts s = some s1
      ∧ s1.EventStream.buf = ts.map mkEvent
      ∧ popN (ts.length + 1) s1 = some ((ts.map mkEvent).map some ++ [none], s2) := by
  have hpush := ui_pushAll_room ts s (by simp [hempty, hcap, hlen])
  obtain ⟨s2, h2⟩ := ui_popN_all (ts.map mkEvent)
    { s with EventStream := { s.EventStream with buf := s.EventStream.buf ++ ts.map mkEvent } }
    (by simp [hempty])
  rw [List.length_map] at h2
  exact ⟨_, s2, hpush, by simp [hempty], h2⟩

/-- Witness of C10: the same triple pushed twice is returned twice. -/
theorem C10_ui_fifo_witness :
    ∃ s1 s2 : State Unit,
      pushAll [(none, 1, "ok"), (none, 1, "ok"), (none, 2, "name")] init = some s1
      ∧ s1.EventStream.buf
          = [mkEvent (none, 1, "ok"), mkEvent (none, 1, "ok"), mkEvent (none, 2, "name")]
      ∧ popN 4 s1
          = some ([some (mkEvent (none, 1, "ok")), some (mkEvent (none, 1, "ok")),
              some (mkEvent (none, 2, "name")), none], s2) :=
  C10_ui_fifo init [(none, 1, "ok"), (none, 1, "ok"), (none, 2, "name")] rfl rfl (by decide)

end UI

/-! ## Bounds, frames and non-blocking of the queues -/

namespace UI

variable {UIElem : Type}

theorem ui_reachable_bounded {s : State UIElem} (h : Reachable s) :
    s.EventStream.cap = 100 ∧ s.EventStream.buf.length ≤ 100 := by
  induction h with
  | start => exact ⟨rfl, by simp [init, Chan.make]⟩
  | @push s s1 c id m _ hp ih =>
    by_cases hfull : s.EventStream.buf.length = s.EventStream.cap
    · rw [ui_PushEvent_full c id m s hfull] at hp
      cases hp
      exact ⟨rfl, by simp⟩
    · have hroom : s.EventStream.buf.length < s.EventStream.cap := by omega
      rw [ui_PushEvent_room c id m s hroom] at hp
      cases hp
      refine ⟨ih.1, ?_⟩
      simp only [List.length_append, List.length_singleton]
      omega
  | @pop s s1 r _ hp ih =>
    cases hbuf : s.EventStream.buf with
    | nil =>
      rw [ui_PopEvent_nil s hbuf] at hp
      cases hp
      exact ih
    | cons e rest =>
      rw [ui_PopEvent_cons s e rest hbuf] at hp
      cases hp
      have h2 := ih.2
      rw [hbuf] at h2
      simp only [List.length_cons] at h2
      exact ⟨ih.1, by show rest.length ≤ 100; omega⟩
  | clear _ _ => exact ⟨rfl, by simp [ClearEvents, Chan.make]⟩

theorem ui_PopEvent_returns (s : State UIElem) : ∃ r s1, PopEvent s = some (r, s1) := by
  cases hbuf : s.EventStream.buf with
  | nil => exact ⟨_, _, ui_PopEvent_nil s hbuf⟩
  | cons e rest => exact ⟨_, _, ui_PopEvent_cons s e rest hbuf⟩

theorem ui_PushEvent_returns (s : State UIElem) (h : s.EventStream.buf.length ≤ s.EventStream.cap)
    (c : Option UIElem) (id : Int) (m : String) : ∃ s1, PushEvent c id m s = some s1 := by
  by_cases hfull : s.EventStream.buf.length = s.EventStream.cap
  · exact ⟨_, ui_PushEvent_full c id m s hfull⟩
  · exact ⟨_, ui_PushEvent_room c id m s (by omega)⟩

end UI

namespace Burl

variable {UIElem : Type}

theorem PopEvent_returns (s : State UIElem) : ∃ r s1, PopEvent s = some (r, s1) := by
  cases hbuf : s.eventStream.buf with
  | nil => exact ⟨_, _, PopEvent_nil s hbuf⟩
  | cons e rest => exact ⟨_, _, PopEvent_cons s e rest hbuf⟩

theorem popInternalEvent_returns (s : State UIElem) :
    ∃ r s1, popInternalEvent s = some (r, s1) := by
  cases hbuf : s.eventStreamInternal.buf with
  | nil => exact ⟨_, _, popInternalEvent_nil s hbuf⟩
  | cons e rest => exact ⟨_, _, popInternalEvent_cons s e rest hbuf⟩

theorem addEvent_returns (e : Event UIElem) (c : Chan (Event UIElem)) (log : List String)
    (h : c.buf.length ≤ c.cap) : ∃ r, addEvent e c log = some r := by
  by_cases hfull : c.buf.length = c.cap
  · exact ⟨_, addEvent_full e c log hfull⟩
  · exact ⟨_, addEvent_room e c log (by omega)⟩

theorem PushEvent_returns (s : State UIElem) (hinv : Inv s) (e : Event UIElem) :
    ∃ s1, PushEvent e s = some s1 := by
  have hle : s.eventStream.buf.length ≤ s.eventStream.cap := by
    rw [hinv.capExt]
    exact hinv.lenExt
  have hleI : s.eventStreamInternal.buf.length ≤ s.eventStreamInternal.cap := by
    rw [hinv.capInt]
    exact hinv.lenInt
  by_cases hui : e.ID = EV_UPDATE_UI
  · cases hp : s.uiEvents e.Message with
    | true => exact ⟨_, PushEvent_refresh_pending e s hui hp⟩
    | false =>
      by_cases hfull : s.eventStream.buf.length = s.eventStream.cap
      · exact ⟨_, PushEvent_refresh_full e s hui hp hinv.flag_refresh hfull⟩
      · exact ⟨_, PushEvent_refresh_room e s hui hp hinv.flag_refresh (by omega)⟩
  · cases hint : s.internalEvent e.ID with
    | true =>
      by_cases hfull : s.eventStreamInternal.buf.length = s.eventStreamInternal.cap
      · exact ⟨_, PushEvent_internal_full e s hui hint hfull⟩
      · exact ⟨_, PushEvent_internal e s hui hint (by omega)⟩
    | false =>
      by_cases hfull : s.eventStream.buf.length = s.eventStream.cap
      · exact ⟨_, PushEvent_external_full e s hui hint hfull⟩
      · exact ⟨_, PushEvent_external e s hui hint (by omega)⟩

theorem PushEvent_uiEvents_of_ne {s s1 : State UIElem} {e : Event UIElem}
    (hui : e.ID ≠ EV_UPDATE_UI) (h : PushEvent e s = some s1) : s1.uiEvents = s.uiEvents := by
  simp only [PushEvent, hui, false_and, if_false] at h
  split at h
  · split at h
    · cases h
    · cases h
      rfl
  · split at h
    · cases h
    · cases h
      rfl

/-- C11: in every state reachable from initialisation the external and the
internal queue of package `burl` have capacity 1000 and hold at most 1000
events, and `ui.EventStream` has capacity 100 and holds at most 100 events. -/
theorem C11_bounded_length (s : State UIElem) (u : UI.State UIElem)
    (hs : Reachable s) (hu : UI.Reachable u) :
    (s.eventStream.cap = 1000 ∧ s.eventStream.len ≤ 1000)
    ∧ (s.eventStreamInternal.cap = 1000 ∧ s.eventStreamInternal.len ≤ 1000)
    ∧ (u.EventStream.cap = 100 ∧ u.EventStream.len ≤ 100) :=
  ⟨⟨hs.inv.capExt, hs.inv.lenExt⟩, ⟨hs.inv.capInt, hs.inv.lenInt⟩, UI.ui_reachable_bounded hu⟩

/-- Witness of C11: a refresh event is queued in `burl`, and `ui.EventStream`
has been cleared. -/
theorem C11_bounded_length_witness :
    (sampleRefreshQueued.eventStream.cap = 1000 ∧ sampleRefreshQueued.eventStream.len ≤ 1000)
    ∧ (sampleRefreshQueued.eventStreamInternal.cap = 1000
        ∧ sampleRefreshQueued.eventStreamInternal.len ≤ 1000)
    ∧ ((UI.ClearEvents (UI.init : UI.State Unit)).EventStream.cap = 100
        ∧ (UI.ClearEvents (UI.init : UI.State Unit)).EventStream.len ≤ 100) :=
  C11_bounded_length sampleRefreshQueued (UI.ClearEvents UI.init) sampleRefreshQueued_reachable
    (UI.Reachable.clear UI.Reachable.start)

/-- C12: in every state, after `ClearEvents` the external queue is empty, the
next `PopEvent` returns nil and the internal queue is as it was; after
`clearEventsInternal` the internal queue is empty, the next `popInternalEvent`
returns nil and the external queue is as it was. -/
theorem C12_clear_one_stream (s : State UIElem) :
    ((ClearEvents s).eventStream.buf = []
      ∧ PopEvent (ClearEvents s) = some (none, ClearEvents s)
      ∧ (ClearEvents s).eventStreamInternal = s.eventStreamInternal)
    ∧ ((clearEventsInternal s).eventStreamInternal.buf = []
      ∧ popInternalEvent (clearEventsInternal s) = some (none, clearEventsInternal s)
      ∧ (clearEventsInternal s).eventStream = s.eventStream) :=
  ⟨⟨rfl, PopEvent_nil _ rfl, rfl⟩, ⟨rfl, popInternalEvent_nil _ rfl, rfl⟩⟩

/-- C13: in every state `PopEvent` returns; it returns nil exactly when the
external queue is empty, and then the state is unchanged; when it returns an
event, that event is the oldest of the external queue, the queue is left with
the remaining events and is one shorter.  The same holds for
`popInternalEvent` and the internal queue. -/
theorem C13_pop_empty_signal (s : State UIElem) :
    ((∃ r s1, PopEvent s = some (r, s1))
      ∧ ((∃ s1, PopEvent s = some (none, s1)) ↔ s.eventStream.buf = [])
      ∧ (∀ s1, PopEvent s = some (none, s1) → s1 = s)
      ∧ (∀ e s1, PopEvent s = some (some e, s1) →
          s.eventStream.buf = e :: s1.eventStream.buf
          ∧ s1.eventStream.len + 1 = s.eventStream.len))
    ∧ ((∃ r s1, popInternalEvent s = some (r, s1))
      ∧ ((∃ s1, popInternalEvent s = some (none, s1)) ↔ s.eventStreamInternal.buf = [])
      ∧ (∀ s1, popInternalEvent s = some (none, s1) → s1 = s)
      ∧ (∀ e s1, popInternalEvent s = some (some e, s1) →
          s.eventStreamInternal.buf = e :: s1.eventStreamInternal.buf
          ∧ s1.eventStreamInternal.len + 1 = s.eventStreamInternal.len)) := by
  constructor
  · refine ⟨PopEvent_returns s, ?_, ?_, ?_⟩
    · constructor
      · rintro ⟨s1, h⟩
        cases hbuf : s.eventStream.buf with
        | nil => rfl
        | cons e rest =>
          rw [PopEvent_cons s e rest hbuf] at h
          simp at h
      · intro hbuf
        exact ⟨s, PopEvent_nil s hbuf⟩
    · intro s1 h
      cases hbuf : s.eventStream.buf with
      | nil =>
        rw [PopEvent_nil s hbuf] at h
        cases h
        rfl
      | cons e rest =>
        rw [PopEvent_cons s e rest hbuf] at h
        simp at h
    · intro e s1 h
      cases hbuf : s.eventStream.buf with
      | nil =>
        rw [PopEvent_nil s hbuf] at h
        simp at h
      | cons x rest =>
        rw [PopEvent_cons s x rest hbuf] at h
        simp only [Option.some.injEq, Prod.mk.injEq] at h
        obtain ⟨hx, hs1⟩ := h
        subst hx
        subst hs1
        simp only [Chan.len, hbuf]
        split <;> simp
  · refine ⟨popInternalEvent_returns s, ?_, ?_, ?_⟩
    · constructor
      · rintro ⟨s1, h⟩
        cases hbuf : s.eventStreamInternal.buf with
        | nil => rfl
        | cons e rest =>
          rw [popInternalEvent_cons s e rest hbuf] at h
          simp at h
      · intro hbuf
        exact ⟨s, popInternalEvent_nil s hbuf⟩
    · intro s1 h
      cases hbuf : s.eventStreamInternal.buf with
      | nil =>
        rw [popInternalEvent_nil s hbuf] at h
        cases h
        rfl
      | cons e rest =>
        rw [popInternalEvent_cons s e rest hbuf] at h
        simp at h
    · intro e s1 h
      cases hbuf : s.eventStreamInternal.buf with
      | nil =>
        rw [popInternalEvent_nil s hbuf] at h
        simp at h
      | cons x rest =>
        rw [popInternalEvent_cons s x rest hbuf] at h
        simp only [Option.some.injEq, Prod.mk.injEq] at h
        obtain ⟨hx, hs1⟩ := h
        subst hx
        subst hs1
        simp [Chan.len, hbuf]

end Burl

namespace Burl

variable {UIElem : Type}

/-- C16: in every reachable state no queue operation blocks: `PushEvent`,
`PopEvent` and `popInternalEvent` of package `burl` and `PushEvent` and
`PopEvent` of package `ui` all return, because the channel a send targets (the
fresh channel of an overflow, or the stream when it is not full) holds fewer
elements than its capacity and a receive is made only on a non-empty channel. -/
theorem C16_no_operation_blocks (s : State UIElem) (u : UI.State UIElem)
    (hs : Reachable s) (hu : UI.Reachable u) :
    (∀ e, ∃ s1, PushEvent e s = some s1)
    ∧ (∀ e, ∃ r, addEvent e s.eventStream s.errorLog = some r)
    ∧ (∀ e, ∃ r, addEvent e s.eventStreamInternal s.errorLog = some r)
    ∧ (s.eventStream.len ≠ s.eventStream.cap → s.eventStream.len < s.eventStream.cap)
    ∧ (s.eventStreamInternal.len ≠ s.eventStreamInternal.cap →
        s.eventStreamInternal.len < s.eventStreamInternal.cap)
    ∧ (Chan.make 1000 : Chan (Event UIElem)).len < (Chan.make 1000 : Chan (Event UIElem)).cap
    ∧ (∃ r s1, PopEvent s = some (r, s1))
    ∧ (∃ r s1, popInternalEvent s = some (r, s1))
    ∧ (∀ c id m, ∃ u1, UI.PushEvent c id m u = some u1)
    ∧ (u.EventStream.len ≠ u.EventStream.cap → u.EventStream.len < u.EventStream.cap)
    ∧ (∃ r u1, UI.PopEvent u = some (r, u1)) := by
  have hinv := hs.inv
  have hb := UI.ui_reachable_bounded hu
  have hle : s.eventStream.buf.length ≤ s.eventStream.cap := by
    rw [hinv.capExt]
    exact hinv.lenExt
  have hleI : s.eventStreamInternal.buf.length ≤ s.eventStreamInternal.cap := by
    rw [hinv.capInt]
    exact hinv.lenInt
  have hleU : u.EventStream.buf.length ≤ u.EventStream.cap := by
    rw [hb.1]
    exact hb.2
  refine ⟨PushEvent_returns s hinv, fun e => addEvent_returns e _ _ hle,
    fun e => addEvent_returns e _ _ hleI, ?_, ?_, ?_, PopEvent_returns s,
    popInternalEvent_returns s, UI.ui_PushEvent_returns u hleU, ?_, UI.ui_PopEvent_returns u⟩
  · intro hne
    simp only [Chan.len] at hne ⊢
    omega
  · intro hne
    simp only [Chan.len] at hne ⊢
    omega
  · simp [Chan.make, Chan.len]
  · intro hne
    simp only [Chan.len] at hne ⊢
    omega

/-- Witness of C16: a refresh event is queued in `burl`, and `ui.EventStream`
has been cleared. -/
theorem C16_no_operation_blocks_witness :
    (∀ e, ∃ s1, PushEvent e sampleRefreshQueued = some s1)
    ∧ (∀ e, ∃ r, addEvent e sampleRefreshQueued.eventStream sampleRefreshQueued.errorLog = some r)
    ∧ (∀ e, ∃ r,
        addEvent e sampleRefreshQueued.eventStreamInternal sampleRefreshQueued.errorLog = some r)
    ∧ (sampleRefreshQueued.eventStream.len ≠ sampleRefreshQueued.eventStream.cap →
        sampleRefreshQueued.eventStream.len < sampleRefreshQueued.eventStream.cap)
    ∧ (sampleRefreshQueued.eventStreamInternal.len ≠ sampleRefreshQueued.eventStreamInternal.cap →
        sampleRefreshQueued.eventStreamInternal.len < sampleRefreshQueued.eventStreamInternal.cap)
    ∧ (Chan.make 1000 : Chan (Event Unit)).len < (Chan.make 1000 : Chan (Event Unit)).cap
    ∧ (∃ r s1, PopEvent sampleRefreshQueued = some (r, s1))
    ∧ (∃ r s1, popInternalEvent sampleRefreshQueued = some (r, s1))
    ∧ (∀ c id m, ∃ u1, UI.PushEvent c id m (UI.ClearEvents (UI.init : UI.State Unit)) = some u1)
    ∧ ((UI.ClearEvents (UI.init : UI.State Unit)).EventStream.len
          ≠ (UI.ClearEvents (UI.init : UI.State Unit)).EventStream.cap →
        (UI.ClearEvents (UI.init : UI.State Unit)).EventStream.len
          < (UI.ClearEvents (UI.init : UI.State Unit)).EventStream.cap)
    ∧ (∃ r u1, UI.PopEvent (UI.ClearEvents (UI.init : UI.State Unit)) = some (r, u1)) :=
  C16_no_operation_blocks sampleRefreshQueued (UI.ClearEvents UI.init)
    sampleRefreshQueued_reachable (UI.Reachable.clear UI.Reachable.start)

/-- C19: in every state and for every key `j`, `PopEvent` changes
`uiEvents[j]` only when it returns a refresh event with message `j`, and the
entry of a returned refresh event is false afterwards; `PopEvent` returning
nil or an event of another kind, `popInternalEvent`, `ClearEvents`,
`clearEventsInternal`, and `PushEvent` of an event whose kind is not
`EV_UPDATE_UI` leave `uiEvents` as it was. -/
theorem C19_pending_set_frame (s : State UIElem) :
    (∀ r s1, PopEvent s = some (r, s1) → ∀ j, s1.uiEvents j ≠ s.uiEvents j →
        ∃ e, r = some e ∧ e.ID = EV_UPDATE_UI ∧ e.Message = j ∧ s1.uiEvents j = false)
    ∧ (∀ e s1, PopEvent s = some (some e, s1) → e.ID = EV_UPDATE_UI →
        s1.uiEvents e.Message = false)
    ∧ (∀ r s1, PopEvent s = some (r, s1) → (∀ e, r = some e → e.ID ≠ EV_UPDATE_UI) →
        s1.uiEvents = s.uiEvents)
    ∧ (∀ r s1, popInternalEvent s = some (r, s1) → s1.uiEvents = s.uiEvents)
    ∧ (ClearEvents s).uiEvents = s.uiEvents
    ∧ (clearEventsInternal s).uiEvents = s.uiEvents
    ∧ (∀ e s1, e.ID ≠ EV_UPDATE_UI → PushEvent e s = some s1 → s1.uiEvents = s.uiEvents) := by
  refine ⟨?_, ?_, ?_, ?_, rfl, rfl, fun e s1 hui h => PushEvent_uiEvents_of_ne hui h⟩
  · intro r s1 h j hj
    cases hbuf : s.eventStream.buf with
    | nil =>
      rw [PopEvent_nil s hbuf] at h
      cases h
      exact absurd rfl hj
    | cons x rest =>
      rw [PopEvent_cons s x rest hbuf] at h
      simp only [Option.some.injEq, Prod.mk.injEq] at h
      obtain ⟨hr, hs1⟩ := h
      subst hr
      subst hs1
      by_cases hui : x.ID = EV_UPDATE_UI
      · rw [if_pos hui] at hj ⊢
        simp only [mapSet] at hj ⊢
        by_cases hm : j = x.Message
        · exact ⟨x, rfl, hui, hm.symm, by simp [hm]⟩
        · rw [if_neg hm] at hj
          exact absurd rfl hj
      · rw [if_neg hui] at hj
        exact absurd rfl hj
  · intro e s1 h hui
    cases hbuf : s.eventStream.buf with
    | nil =>
      rw [PopEvent_nil s hbuf] at h
      simp at h
    | cons x rest =>
      rw [PopEvent_cons s x rest hbuf] at h
      simp only [Option.some.injEq, Prod.mk.injEq] at h
      obtain ⟨hr, hs1⟩ := h
      subst hr
      subst hs1
      rw [if_pos hui]
      simp [mapSet]
  · intro r s1 h hr
    cases hbuf : s.eventStream.buf with
    | nil =>
      rw [PopEvent_nil s hbuf] at h
      cases h
      rfl
    | cons x rest =>
      rw [PopEvent_cons s x rest hbuf] at h
      simp only [Option.some.injEq, Prod.mk.injEq] at h
      obtain ⟨hx, hs1⟩ := h
      subst hs1
      rw [if_neg (hr x hx.symm)]
  · intro r s1 h
    cases hbuf : s.eventStreamInternal.buf with
    | nil =>
      rw [popInternalEvent_nil s hbuf] at h
      cases h
      rfl
    | cons x rest =>
      rw [popInternalEvent_cons s x rest hbuf] at h
      cases h
      rfl

end Burl

/-! ## Claims on the game loop -/

namespace Burl.Engine

variable {W : Type}

theorem sampleQuitQueued_push :
    Burl.PushEvent (Burl.NewEvent Burl.EV_QUIT "bye") (Burl.init : Burl.State Unit)
      = some sampleQuitQueued := by
  rw [Burl.PushEvent_internal _ _ (by decide) rfl (by decide)]
  rfl

theorem sampleQuitQueued_reachable : Burl.Reachable sampleQuitQueued :=
  Burl.Reachable.push _ Burl.Reachable.start sampleQuitQueued_push

theorem handledKeys_append (a b : List Call) :
    handledKeys (a ++ b) = handledKeys a ++ handledKeys b := by
  induction a with
  | nil => rfl
  | cons x a ih => cases x <;> simp [handledKeys, ih]

theorem pollEvents_spec (gs : State W) (batch : List SdlEvent) (l : Loop W) :
    (∃ polled, (pollEvents gs batch l).calls = l.calls ++ polled
        ∧ handledKeys polled = keyUps batch
        ∧ Call.Update ∉ polled ∧ Call.Render ∉ polled ∧ Call.consoleRender ∉ polled
        ∧ polled.count Call.PollEvent = batch.length + 1)
    ∧ (pollEvents gs batch l).world
        = (keyUps batch).foldl (fun x k => gs.HandleKeypress k x) l.world
    ∧ ((pollEvents gs batch l).running = true ↔
        l.running = true ∧ SdlEvent.QuitEvent ∉ batch) := by
  induction batch generalizing l with
  | nil =>
    refine ⟨⟨[Call.PollEvent], rfl, rfl, by simp, by simp, by simp, by simp⟩, rfl, ?_⟩
    simp [pollEvents]
  | cons ev rest ih =>
    obtain ⟨⟨polled, h1, h2, h3, h4, h5, h6⟩, hw, hr⟩ :=
      ih (dispatch gs ev { l with calls := l.calls ++ [Call.PollEvent] })
    cases ev with
    | QuitEvent =>
      refine ⟨⟨Call.PollEvent :: polled, ?_, ?_, ?_, ?_, ?_, ?_⟩, ?_, ?_⟩
      · simpa [pollEvents, dispatch] using h1
      · simpa [handledKeys, keyUps] using h2
      · simpa using h3
      · simpa using h4
      · simpa using h5
      · simp [h6]
      · simpa [pollEvents, dispatch, keyUps] using hw
      · simp only [pollEvents]
        rw [hr]
        simp [dispatch]
    | WindowEvent e =>
      by_cases he : e = WINDOWEVENT_RESTORED
      · refine ⟨⟨Call.PollEvent :: Call.ForceRedraw :: polled, ?_, ?_, ?_, ?_, ?_, ?_⟩, ?_, ?_⟩
        · simpa [pollEvents, dispatch, he] using h1
        · simpa [handledKeys, keyUps] using h2
        · simpa using h3
        · simpa using h4
        · simpa using h5
        · simp [h6]
        · simpa [pollEvents, dispatch, keyUps, he] using hw
        · simp only [pollEvents]
          rw [hr]
          simp [dispatch, he]
      · refine ⟨⟨Call.PollEvent :: polled, ?_, ?_, ?_, ?_, ?_, ?_⟩, ?_, ?_⟩
        · simpa [pollEvents, dispatch, he] using h1
        · simpa [handledKeys, keyUps] using h2
        · simpa using h3
        · simpa using h4
        · simpa using h5
        · simp [h6]
        · simpa [pollEvents, dispatch, keyUps, he] using hw
        · simp only [pollEvents]
          rw [hr]
          simp [dispatch, he]
    | KeyUpEvent sym =>
      refine ⟨⟨Call.PollEvent :: Call.HandleKeypress sym :: polled, ?_, ?_, ?_, ?_, ?_, ?_⟩, ?_, ?_⟩
      · simpa [pollEvents, dispatch] using h1
      · simpa [handledKeys, keyUps] using h2
      · simpa using h3
      · simpa using h4
      · simpa using h5
      · simp [h6]
      · simpa [pollEvents, dispatch, keyUps] using hw
      · simp only [pollEvents]
        rw [hr]
        simp [dispatch]
    | other =>
      refine ⟨⟨Call.PollEvent :: polled, ?_, ?_, ?_, ?_, ?_, ?_⟩, ?_, ?_⟩
      · simpa [pollEvents, dispatch] using h1
      · simpa [handledKeys, keyUps] using h2
      · simpa using h3
      · simpa using h4
      · simpa using h5
      · simp [h6]
      · simpa [pollEvents, dispatch, keyUps] using hw
      · simp only [pollEvents]
        rw [hr]
        simp [dispatch]

theorem frame_running (gs : State W) (batch : List SdlEvent) (l : Loop W) :
    (frame gs batch l).running = true ↔ l.running = true ∧ SdlEvent.QuitEvent ∉ batch :=
  (pollEvents_spec gs batch l).2.2

theorem runLoop_no_error (gs : State W) (input : List (List SdlEvent)) (l : Loop W)
    (msg : String) (w : W) (c : List Call) :
    runLoop gs input l ≠ Outcome.returned (some msg) w c := by
  induction input generalizing l with
  | nil => simp [runLoop]
  | cons batch more ih =>
    simp only [runLoop]
    split
    · exact ih _
    · simp

theorem runLoop_quit (gs : State W) (input : List (List SdlEvent)) (l : Loop W)
    (h : ∃ batch ∈ input, SdlEvent.QuitEvent ∈ batch) :
    ∃ w c, runLoop gs input l = Outcome.returned none w c := by
  induction input generalizing l with
  | nil =>
    obtain ⟨b, hb, _⟩ := h
    cases hb
  | cons batch more ih =>
    simp only [runLoop]
    split
    · rename_i hrun
      apply ih
      obtain ⟨b, hb, hq⟩ := h
      rcases List.mem_cons.1 hb with hb | hb
      · subst hb
        exact absurd hq ((frame_running gs b l).1 hrun).2
      · exact ⟨b, hb, hq⟩
    · exact ⟨_, _, rfl⟩

theorem runLoop_no_quit (gs : State W) (input : List (List SdlEvent)) (l : Loop W)
    (hrun : l.running = true) (h : ∀ batch ∈ input, SdlEvent.QuitEvent ∉ batch) :
    ∃ w c, runLoop gs input l = Outcome.polling w c := by
  induction input generalizing l with
  | nil => exact ⟨_, _, rfl⟩
  | cons batch more ih =>
    have hr : (frame gs batch l).running = true :=
      (frame_running gs batch l).2 ⟨hrun, h batch (List.mem_cons_self _ _)⟩
    simp only [runLoop, hr, if_true]
    exact ih _ hr (fun b hb => h b (List.mem_cons_of_mem _ hb))

end Burl.Engine

namespace Burl.Engine

variable {W : Type}

/-- C14: if `console.Ready` is false or `gameState` is nil, `GameLoop` returns
an error having made no call but `runtime.LockOSThread` (no poll, no
`HandleKeypress`, `Update` or `Render`, no `console.Render`) and having left
everything as it was; if both are set it never returns an error, it returns
nil when some iteration polls a quit signal, and it keeps running as long as
none does. -/
theorem C14_gameloop_fails_fast (consoleReady : Bool) (gameState : Option (State W))
    (input : List (List SdlEvent)) (world : W) :
    ((consoleReady = false ∨ gameState = none) →
        ∃ msg, GameLoop consoleReady gameState input world
          = Outcome.returned (some msg) world [Call.LockOSThread])
    ∧ (consoleReady = true → gameState ≠ none →
        (∀ msg w c, GameLoop consoleReady gameState input world
            ≠ Outcome.returned (some msg) w c)
        ∧ ((∃ batch ∈ input, SdlEvent.QuitEvent ∈ batch) →
            ∃ w c, GameLoop consoleReady gameState input world = Outcome.returned none w c)
        ∧ ((∀ batch ∈ input, SdlEvent.QuitEvent ∉ batch) →
            ∃ w c, GameLoop consoleReady gameState input world = Outcome.polling w c)) := by
  constructor
  · intro h
    cases hc : consoleReady with
    | false =>
      exact ⟨"Console not set up. Run burl.console.Setup() before starting game loop!",
        by simp [GameLoop]⟩
    | true =>
      rcases h with h | h
      · rw [hc] at h
        exact Bool.noConfusion h
      · subst h
        exact ⟨"No gameState initialized. Run burl.InitState() before starting game loop!",
          by simp [GameLoop]⟩
  · intro hc hg
    subst hc
    cases gameState with
    | none => exact absurd rfl hg
    | some gs =>
      refine ⟨?_, ?_, ?_⟩
      · intro msg w c
        simpa [GameLoop] using runLoop_no_error gs input _ msg w c
      · intro h
        simpa [GameLoop] using runLoop_quit gs input _ h
      · intro h
        simpa [GameLoop] using runLoop_no_quit gs input _ rfl h

/-- C15: with a quit event in the internal queue when `GameLoop` is called, a
State whose methods leave the queues alone, and native input of an empty
first iteration and a quit signal in the second, the internal queue still
holds that event at the end of the first iteration and when `GameLoop`
returns: no iteration pops it, and the queued `EV_QUIT` does not stop the
loop, which runs on after two iterations without a native quit signal. -/
theorem C15_internal_queue_not_drained :
    Burl.Reachable sampleQuitQueued
    ∧ (frame BurlState.asState []
          { running := true, world := (({ tick := 0 } : BurlState), sampleQuitQueued),
            calls := [Call.LockOSThread] }).world.2.eventStreamInternal.buf
        = [Burl.NewEvent Burl.EV_QUIT "bye"]
    ∧ GameLoop true (some BurlState.asState) [[], [SdlEvent.QuitEvent]]
          (({ tick := 0 } : BurlState), sampleQuitQueued)
        = Outcome.returned none (({ tick := 2 } : BurlState), sampleQuitQueued)
            [Call.LockOSThread, Call.PollEvent, Call.Update, Call.Render, Call.consoleRender,
              Call.PollEvent, Call.PollEvent, Call.Update, Call.Render, Call.consoleRender]
    ∧ GameLoop true (some BurlState.asState) [[], []]
          (({ tick := 0 } : BurlState), sampleQuitQueued)
        = Outcome.polling (({ tick := 2 } : BurlState), sampleQuitQueued)
            [Call.LockOSThread, Call.PollEvent, Call.Update, Call.Render, Call.consoleRender,
              Call.PollEvent, Call.Update, Call.Render, Call.consoleRender] :=
  ⟨sampleQuitQueued_reachable, rfl, rfl, rfl⟩

/-- One iteration of the running loop: the calls it adds, the world it leaves
and whether the loop goes on. -/
theorem frame_steps (gs : State W) (batch : List SdlEvent)
    (more : List (List SdlEvent)) (l : Loop W) (hrun : l.running = true) :
    (∃ polled,
        (frame gs batch l).calls
          = l.calls ++ polled ++ [Call.Update, Call.Render, Call.consoleRender]
        ∧ handledKeys polled = keyUps batch
        ∧ Call.Update ∉ polled ∧ Call.Render ∉ polled ∧ Call.consoleRender ∉ polled
        ∧ polled.count Call.PollEvent = batch.length + 1)
    ∧ (frame gs batch l).world
        = gs.Render (gs.Update ((keyUps batch).foldl (fun x k => gs.HandleKeypress k x) l.world))
    ∧ (SdlEvent.QuitEvent ∈ batch →
        runLoop gs (batch :: more) l
          = Outcome.returned none (frame gs batch l).world (frame gs batch l).calls)
    ∧ (SdlEvent.QuitEvent ∉ batch →
        runLoop gs (batch :: more) l = runLoop gs more (frame gs batch l)
        ∧ (frame gs batch l).running = true) := by
  obtain ⟨⟨polled, h1, h2, h3, h4, h5, h6⟩, hw, _⟩ := pollEvents_spec gs batch l
  refine ⟨⟨polled, ?_, h2, h3, h4, h5, h6⟩, ?_, ?_, ?_⟩
  · simp [frame, h1]
  · simp [frame, hw]
  · intro hq
    have hr : ¬ (frame gs batch l).running = true := fun h =>
      ((frame_running gs batch l).1 h).2 hq
    simp [runLoop, hr]
  · intro hq
    have hr : (frame gs batch l).running = true := (frame_running gs batch l).2 ⟨hrun, hq⟩
    exact ⟨by simp [runLoop, hr], hr⟩

theorem runLoop_frames (gs : State W) (pre : List (List SdlEvent)) (l : Loop W)
    (hrun : l.running = true) (hpre : ∀ b ∈ pre, SdlEvent.QuitEvent ∉ b) :
    ∃ segs : List (List Call),
      List.Forall₂
          (fun b polled =>
            handledKeys polled = keyUps b
            ∧ Call.Update ∉ polled ∧ Call.Render ∉ polled ∧ Call.consoleRender ∉ polled
            ∧ polled.count Call.PollEvent = b.length + 1)
          pre segs
      ∧ ∀ rest, runLoop gs (pre ++ rest) l
          = runLoop gs rest
              { running := true
                world :=
                  pre.foldl
                    (fun w b =>
                      gs.Render
                        (gs.Update ((keyUps b).foldl (fun x k => gs.HandleKeypress k x) w)))
                    l.world
                calls :=
                  l.calls
                    ++ (segs.map (fun polled =>
                          polled ++ [Call.Update, Call.Render, Call.consoleRender])).flatten } := by
  induction pre generalizing l with
  | nil =>
    refine ⟨[], List.Forall₂.nil, ?_⟩
    intro rest
    cases l with
    | mk running world calls =>
      simp only at hrun
      subst hrun
      simp
  | cons b pre ih =>
    have hb : SdlEvent.QuitEvent ∉ b := hpre b (List.mem_cons_self _ _)
    obtain ⟨⟨polled, hc, hk, hu, hr, hcr, hp⟩, hw, _, hnext⟩ := frame_steps gs b [] l hrun
    obtain ⟨segs, hsegs, heq⟩ :=
      ih (frame gs b l) (hnext hb).2 (fun x hx => hpre x (List.mem_cons_of_mem _ hx))
    refine ⟨polled :: segs, List.Forall₂.cons ⟨hk, hu, hr, hcr, hp⟩ hsegs, ?_⟩
    intro rest
    have hstep : runLoop gs (b :: (pre ++ rest)) l = runLoop gs (pre ++ rest) (frame gs b l) := by
      simp [runLoop, (hnext hb).2]
    rw [List.cons_append, hstep, heq rest, hw, hc]
    simp [List.append_assoc]

/-- C17: `GameLoop`, called with the console ready and a State installed whose
methods do not reassign `gameState`, runs one iteration per batch of polled
input.  In every iteration the key codes of the key-up signals polled are
passed to `HandleKeypress` in polled order, whether polled before or after a
quit signal; then `Update` is called once, then `Render`, then
`console.Render`.  As long as no quit signal has been polled the loop is
still running; the iteration that polls one completes these steps and is the
last: `GameLoop` returns nil after it without reading further input. -/
theorem C17_frame_protocol (gs : State W) (pre : List (List SdlEvent))
    (batch : List SdlEvent) (more : List (List SdlEvent)) (world : W)
    (hpre : ∀ b ∈ pre, SdlEvent.QuitEvent ∉ b) :
    (∃ segs : List (List Call),
        List.Forall₂
            (fun b polled =>
              handledKeys polled = keyUps b
              ∧ Call.Update ∉ polled ∧ Call.Render ∉ polled ∧ Call.consoleRender ∉ polled
              ∧ polled.count Call.PollEvent = b.length + 1)
            pre segs
        ∧ GameLoop true (some gs) pre world
          = Outcome.polling
              (pre.foldl
                (fun w b =>
                  gs.Render (gs.Update ((keyUps b).foldl (fun x k => gs.HandleKeypress k x) w)))
                world)
              (Call.LockOSThread
                :: (segs.map (fun polled =>
                      polled ++ [Call.Update, Call.Render, Call.consoleRender])).flatten))
    ∧ (SdlEvent.QuitEvent ∈ batch →
        ∃ segs : List (List Call),
          List.Forall₂
              (fun b polled =>
                handledKeys polled = keyUps b
                ∧ Call.Update ∉ polled ∧ Call.Render ∉ polled ∧ Call.consoleRender ∉ polled
                ∧ polled.count Call.PollEvent = b.length + 1)
              (pre ++ [batch]) segs
          ∧ GameLoop true (some gs) (pre ++ batch :: more) world
            = Outcome.returned none
                ((pre ++ [batch]).foldl
                  (fun w b =>
                    gs.Render
                      (gs.Update ((keyUps b).foldl (fun x k => gs.HandleKeypress k x) w)))
                  world)
                (Call.LockOSThread
                  :: (segs.map (fun polled =>
                        polled ++ [Call.Update, Call.Render, Call.consoleRender])).flatten)) := by
  obtain ⟨segs, hsegs, heq⟩ :=
    runLoop_frames gs pre { running := true, world := world, calls := [Call.LockOSThread] }
      rfl hpre
  constructor
  · refine ⟨segs, hsegs, ?_⟩
    have h := heq []
    rw [List.append_nil] at h
    simp only [GameLoop, Bool.not_true, Bool.false_eq_true, if_false]
    rw [h]
    simp [runLoop]
  · intro hq
    obtain ⟨⟨polled, hc, hk, hu, hr, hcr, hp⟩, hw, hlast, _⟩ :=
      frame_steps gs batch more
        { running := true
          world :=
            pre.foldl
              (fun w b =>
                gs.Render (gs.Update ((keyUps b).foldl (fun x k => gs.HandleKeypress k x) w)))
              world
          calls :=
            [Call.LockOSThread]
              ++ (segs.map (fun polled =>
                    polled ++ [Call.Update, Call.Render, Call.consoleRender])).flatten }
        rfl
    refine ⟨segs ++ [polled], ?_, ?_⟩
    · exact List.rel_append hsegs (List.Forall₂.cons ⟨hk, hu, hr, hcr, hp⟩ List.Forall₂.nil)
    · simp only [GameLoop, Bool.not_true, Bool.false_eq_true, if_false]
      rw [heq (batch :: more), hlast hq, hw, hc]
      simp [List.append_assoc]

/-- Witness of C17: a key-up in the first iteration; a key-up, a quit signal
and a second key-up in the next; a third batch that is never polled. -/
theorem C17_frame_protocol_witness :
    (∃ segs : List (List Call),
        List.Forall₂
            (fun b polled =>
              handledKeys polled = keyUps b
              ∧ Call.Update ∉ polled ∧ Call.Render ∉ polled ∧ Call.consoleRender ∉ polled
              ∧ polled.count Call.PollEvent = b.length + 1)
            ([[SdlEvent.KeyUpEvent 97]]
              ++ [[SdlEvent.KeyUpEvent 98, SdlEvent.QuitEvent, SdlEvent.KeyUpEvent 99]])
            segs
        ∧ GameLoop true (some (BurlState.asState : State (BurlState × Unit)))
            ([[SdlEvent.KeyUpEvent 97]]
              ++ [SdlEvent.KeyUpEvent 98, SdlEvent.QuitEvent, SdlEvent.KeyUpEvent 99]
                :: [[SdlEvent.KeyUpEvent 100]])
            ({ tick := 0 }, ())
          = Outcome.returned none
              (([[SdlEvent.KeyUpEvent 97]]
                  ++ [[SdlEvent.KeyUpEvent 98, SdlEvent.QuitEvent, SdlEvent.KeyUpEvent 99]]).foldl
                (fun w b =>
                  (BurlState.asState : State (BurlState × Unit)).Render
                    ((BurlState.asState : State (BurlState × Unit)).Update
                      ((keyUps b).foldl
                        (fun x k =>
                          (BurlState.asState : State (BurlState × Unit)).HandleKeypress k x) w)))
                ({ tick := 0 }, ()))
              (Call.LockOSThread
                :: (segs.map (fun polled =>
                      polled ++ [Call.Update, Call.Render, Call.consoleRender])).flatten))
    ∧ GameLoop true (some (BurlState.asState : State (BurlState × Unit)))
        [[SdlEvent.KeyUpEvent 97],
          [SdlEvent.KeyUpEvent 98, SdlEvent.QuitEvent, SdlEvent.KeyUpEvent 99],
          [SdlEvent.KeyUpEvent 100]]
        ({ tick := 0 }, ())
      = Outcome.returned none ({ tick := 2 }, ())
          [Call.LockOSThread,
            Call.PollEvent, Call.HandleKeypress 97, Call.PollEvent,
            Call.Update, Call.Render, Call.consoleRender,
            Call.PollEvent, Call.HandleKeypress 98, Call.PollEvent, Call.PollEvent,
            Call.HandleKeypress 99, Call.PollEvent,
            Call.Update, Call.Render, Call.consoleRender] :=
  ⟨(C17_frame_protocol (BurlState.asState : State (BurlState × Unit))
      [[SdlEvent.KeyUpEvent 97]]
      [SdlEvent.KeyUpEvent 98, SdlEvent.QuitEvent, SdlEvent.KeyUpEvent 99]
      [[SdlEvent.KeyUpEvent 100]] ({ tick := 0 }, ()) (by decide)).2 (by decide),
    rfl⟩

end Burl.Engine

namespace Burl

variable {UIElem : Type}

/-- C20: in every state reachable from initialisation `EV_UPDATE_UI` is not
flagged internal and the internal queue holds no refresh event, so
`popInternalEvent` never returns one and leaves the pending set as it was,
and `PushEvent` of a refresh event leaves the internal queue as it was. -/
theorem C20_no_refresh_in_internal_stream (s : State UIElem) (hs : Reachable s) :
    s.internalEvent EV_UPDATE_UI = false
    ∧ (∀ e ∈ s.eventStreamInternal.buf, e.ID ≠ EV_UPDATE_UI)
    ∧ (∀ e s1, popInternalEvent s = some (some e, s1) →
        e.ID ≠ EV_UPDATE_UI ∧ s1.uiEvents = s.uiEvents)
    ∧ (∀ e s1, e.ID = EV_UPDATE_UI → PushEvent e s = some s1 →
        s1.eventStreamInternal = s.eventStreamInternal) := by
  have hinv := hs.inv
  have hflag := hinv.flag_refresh
  have hmem : ∀ e ∈ s.eventStreamInternal.buf, e.ID ≠ EV_UPDATE_UI := by
    intro e he hid
    have h1 := hinv.intKinds e he
    rw [hid, hflag] at h1
    exact Bool.noConfusion h1
  refine ⟨hflag, hmem, ?_, ?_⟩
  · intro e s1 h
    refine ⟨hmem e (popInternalEvent_some_mem h), ?_⟩
    cases hbuf : s.eventStreamInternal.buf with
    | nil =>
      rw [popInternalEvent_nil s hbuf] at h
      simp at h
    | cons x rest =>
      rw [popInternalEvent_cons s x rest hbuf] at h
      simp only [Option.some.injEq, Prod.mk.injEq] at h
      rw [← h.2]
  · intro e s1 hui h
    cases hp : s.uiEvents e.Message with
    | true =>
      rw [PushEvent_refresh_pending e s hui hp] at h
      cases h
      rfl
    | false =>
      by_cases hfull : s.eventStream.buf.length = s.eventStream.cap
      · rw [PushEvent_refresh_full e s hui hp hflag hfull] at h
        cases h
        rfl
      · have hroom : s.eventStream.buf.length < s.eventStream.cap := by
          have h1 := hinv.lenExt
          have h2 := hinv.capExt
          omega
        rw [PushEvent_refresh_room e s hui hp hflag hroom] at h
        cases h
        rfl

/-- Witness of C20: the state in which a quit event is queued internally. -/
theorem C20_no_refresh_in_internal_stream_witness :
    Engine.sampleQuitQueued.internalEvent EV_UPDATE_UI = false
    ∧ (∀ e ∈ Engine.sampleQuitQueued.eventStreamInternal.buf, e.ID ≠ EV_UPDATE_UI)
    ∧ (∀ e s1, popInternalEvent Engine.sampleQuitQueued = some (some e, s1) →
        e.ID ≠ EV_UPDATE_UI ∧ s1.uiEvents = Engine.sampleQuitQueued.uiEvents)
    ∧ (∀ e s1, e.ID = EV_UPDATE_UI → PushEvent e Engine.sampleQuitQueued = some s1 →
        s1.eventStreamInternal = Engine.sampleQuitQueued.eventStreamInternal) :=
  C20_no_refresh_in_internal_stream Engine.sampleQuitQueued Engine.sampleQuitQueued_reachable

end Burl
